import Mathlib

/-!
Verification of the Slack email draft service (`draft_service.py`).

Strings from the Python source are modelled as `List Char`.  Python string
operations used by the service (`strip`, `split(sep, 1)`, `in`, `lower`,
`startswith`, `rstrip`, `"\n".join`, `split("\n")`) are given executable
models below, and the service functions are direct transliterations of the
Python code.  The prompt text sent to the generation backend is abstracted:
the generation oracle in `Env` models the outcome of each successive
backend call (indexed by the attempt number), which is the only aspect of
generation the service observes.
-/

/-- Whitespace characters removed by the Python `str.strip()` for ASCII input. -/
def isPySpace (c : Char) : Bool :=
  c == ' ' || c == '\t' || c == '\n' || c == '\r' || c == '\x0b' || c == '\x0c'

/-- Model of Python `s.startswith(pat)` on character lists. -/
def startsWith : List Char → List Char → Bool
  | [], _ => true
  | _ :: _, [] => false
  | p :: ps, c :: cs => p == c && startsWith ps cs

/-- Split a character list at the first occurrence of `pat`:
`splitOnFirst pat s = some (a, b)` means `s = a ++ pat ++ b` with the
occurrence of `pat` leftmost.  Models Python `s.split(pat, 1)` when the
result is a pair, and `none` models the `ValueError` raised when `pat`
does not occur. -/
def splitOnFirst (pat : List Char) : List Char → Option (List Char × List Char)
  | [] => if startsWith pat [] then some ([], []) else none
  | c :: rest =>
    if startsWith pat (c :: rest) then some ([], (c :: rest).drop pat.length)
    else (splitOnFirst pat rest).map (fun pr => (c :: pr.1, pr.2))

/-- Model of the Python substring test `pat in s`. -/
def occursB (pat s : List Char) : Bool := (splitOnFirst pat s).isSome

/-- Leading-whitespace removal (first half of Python `strip`). -/
def dropLeading (l : List Char) : List Char := l.dropWhile isPySpace

/-- Trailing-whitespace removal (second half of Python `strip`). -/
def dropTrailing (l : List Char) : List Char := (l.reverse.dropWhile isPySpace).reverse

/-- Model of Python `str.strip()`. -/
def pyStrip (l : List Char) : List Char := dropTrailing (dropLeading l)

/-- Model of Python `str.lower()` for the ASCII data the service handles. -/
def lowerL (l : List Char) : List Char := l.map Char.toLower

/-- Model of Python `text.split("\n")[0]`. -/
def firstLineOf (text : List Char) : List Char := text.takeWhile (fun c => !(c == '\n'))

/-- Model of Python `text.split("\n")` (keeps empty pieces, result nonempty). -/
def splitLines : List Char → List (List Char)
  | [] => [[]]
  | c :: rest =>
    if c == '\n' then [] :: splitLines rest
    else
      match splitLines rest with
      | [] => [[c]]
      | l :: ls => (c :: l) :: ls

/-- Model of Python `"\n".join(lines)`. -/
def joinNL : List (List Char) → List Char
  | [] => []
  | [l] => l
  | l :: ls => l ++ '\n' :: joinNL ls

/-! ### Data model -/

/-- Parsed email fields, the dict returned by `parse_email_from_message`. -/
structure ParsedEmail where
  sender : List Char
  subject : List Char
  body : List Char
  deriving DecidableEq, Repr

/-- The dict returned by `classify_email`. -/
structure Classification where
  priority : List Char
  email_type : List Char
  is_from_laura : Bool
  deriving DecidableEq, Repr

/-! ### Notification parser (`parse_email_from_message`, lines 205-242) -/

/-- The literal marker `" | Subject: "`. -/
def SUBJECT_MARK : List Char :=
  [' ', '|', ' ', 'S', 'u', 'b', 'j', 'e', 'c', 't', ':', ' ']

/-- The literal marker `" | Body Preview: "`. -/
def BODY_MARK : List Char :=
  [' ', '|', ' ', 'B', 'o', 'd', 'y', ' ', 'P', 'r', 'e', 'v', 'i', 'e', 'w', ':', ' ']

/-- The placeholder substituted for an empty body preview. -/
def NO_PREVIEW : List Char := ("(No preview)").toList

/-- Transliteration of `parse_email_from_message`: parse the first line of a
notification message in the form
`"[From] | Subject: [Subject] | Body Preview: [Body]"`.  The `none` result
models both the explicit `return None` paths and the caught `ValueError`
from the second split. -/
def parse_email_from_message (text : List Char) : Option ParsedEmail :=
  let first_line := pyStrip (firstLineOf text)
  if occursB SUBJECT_MARK first_line && occursB BODY_MARK first_line then
    match splitOnFirst BODY_MARK first_line with
    | none => none
    | some (before_body, body_part) =>
      match splitOnFirst SUBJECT_MARK before_body with
      | none => none
      | some (from_part, subject_part) =>
        let from_clean := pyStrip from_part
        let subject_clean := pyStrip subject_part
        let body_clean := pyStrip body_part
        if from_clean.isEmpty || subject_clean.isEmpty then none
        else some ⟨from_clean, subject_clean,
          if body_clean.isEmpty then NO_PREVIEW else body_clean⟩
  else none

/-- Re-serialization of a `ParsedEmail` into the notification template
`"<sender> | Subject: <subject> | Body Preview: <body>"` (spec section 6). -/
def serializeEmail (p : ParsedEmail) : List Char :=
  p.sender ++ SUBJECT_MARK ++ p.subject ++ BODY_MARK ++ p.body

/-! ### Classifier (`is_priority_sender` and `classify_email`, lines 244-287) -/

/-- The priority-sender substrings. -/
def priority_patterns : List (List Char) :=
  [("laura.paris").toList, ("lparis").toList, ("laura paris").toList]

/-- Transliteration of `is_priority_sender`. -/
def is_priority_sender (from_field : List Char) : Bool :=
  priority_patterns.any (fun pattern => occursB pattern (lowerL from_field))

/-- The urgency keywords. -/
def urgent_keywords : List (List Char) :=
  [("urgent").toList, ("asap").toList, ("immediately").toList,
   ("emergency").toList, ("critical").toList, ("deadline today").toList]

/-- Scheduling-category keywords. -/
def scheduling_keywords : List (List Char) :=
  [("meeting").toList, ("schedule").toList, ("calendar").toList, ("time").toList]

/-- Question-category keywords. -/
def question_keywords : List (List Char) :=
  [("question").toList, ("?").toList]

/-- Request-category keywords. -/
def request_keywords : List (List Char) :=
  [("please").toList, ("request").toList, ("need").toList, ("can you").toList]

/-- Fyi-category keywords. -/
def fyi_keywords : List (List Char) :=
  [("fyi").toList, ("update").toList, ("information").toList, ("attached").toList]

/-- Acknowledgment-category keywords. -/
def acknowledgment_keywords : List (List Char) :=
  [("thank").toList, ("congrat").toList, ("great job").toList, ("well done").toList]

/-- Transliteration of `classify_email`.  Note that the category checks test
each keyword against `subject + body`, the concatenation of the lowercased
subject and body, exactly as the Python does. -/
def classify_email (email_data : ParsedEmail) : Classification :=
  let subject := lowerL email_data.subject
  let body := lowerL email_data.body
  let from_field := email_data.sender
  let is_from_laura := is_priority_sender from_field
  let is_urgent := urgent_keywords.any (fun kw => occursB kw subject || occursB kw body)
  let priority : List Char :=
    if is_from_laura then ("URGENT - FROM LAURA").toList
    else if is_urgent then ("URGENT").toList
    else ("NORMAL").toList
  let email_type : List Char :=
    if scheduling_keywords.any (fun kw => occursB kw (subject ++ body)) then ("scheduling").toList
    else if question_keywords.any (fun kw => occursB kw (subject ++ body)) then ("question").toList
    else if request_keywords.any (fun kw => occursB kw (subject ++ body)) then ("request").toList
    else if fyi_keywords.any (fun kw => occursB kw (subject ++ body)) then ("fyi").toList
    else if acknowledgment_keywords.any (fun kw => occursB kw (subject ++ body)) then
      ("acknowledgment").toList
    else ("general").toList
  ⟨priority, email_type, is_from_laura⟩

/-! ### Draft extractor (`get_last_draft_from_thread`, lines 159-203) -/

/-- The draft-container marker `"Draft Response"`. -/
def DRAFT_MARK : List Char := ("Draft Response").toList

/-- The starred draft header `"*Draft Response*"`. -/
def STAR_HEADER : List Char := ("*Draft Response*").toList

/-- The refinement-instructions marker checked by the fallback line scan. -/
def REPLY_MARK : List Char := ("_Reply with @CHFSDraftBot").toList

/-- The delimiter `"\n\n---"` ending the lazy group of the draft regex. -/
def NL_NL_DASHES : List Char := ['\n', '\n', '-', '-', '-']

/-- Attempt the tail of the draft regex
`\*Draft Response\*[^\n]*\n\n(.*?)\n\n---` at a fixed position: `u` is the
text immediately after an occurrence of `*Draft Response*`.  `[^\n]*` is
forced to the maximal run of non-newline characters (shorter runs cannot be
followed by the required `\n`), then `\n\n` must follow literally, and the
lazy group ends at the first later occurrence of `"\n\n---"`. -/
def tryMatchTail (u : List Char) : Option (List Char) :=
  let after_run := u.dropWhile (fun c => !(c == '\n'))
  if startsWith ['\n', '\n'] after_run then
    (splitOnFirst NL_NL_DASHES (after_run.drop 2)).map Prod.fst
  else none

/-- Model of `re.search(r'\*Draft Response\*[^\n]*\n\n(.*?)\n\n---', text, re.DOTALL)`:
scan left to right for an occurrence of the literal header whose tail
matches, and return the content of group 1. -/
def reSearchDraft : List Char → Option (List Char)
  | [] => none
  | c :: rest =>
    if startsWith STAR_HEADER (c :: rest) then
      match tryMatchTail ((c :: rest).drop STAR_HEADER.length) with
      | some content => some content
      | none => reSearchDraft rest
    else reSearchDraft rest

/-- One step of the fallback line scan of `get_last_draft_from_thread`
(lines 185-195): collect non-blank lines after a header line, stopping at a
`"---"` line or the refinement-instructions marker.  Returns the collected
lines. -/
def fallbackScanAux : List (List Char) → Bool → List (List Char) → List (List Char)
  | [], _, acc => acc
  | line :: rest, in_draft, acc =>
    if occursB STAR_HEADER line || occursB DRAFT_MARK line then
      fallbackScanAux rest true acc
    else if startsWith (['-', '-', '-']) line || occursB REPLY_MARK line then acc
    else if in_draft && !(pyStrip line).isEmpty then
      fallbackScanAux rest in_draft (acc ++ [line])
    else fallbackScanAux rest in_draft acc

/-- The fallback extraction path of `get_last_draft_from_thread`
(lines 184-200): line-by-line parsing. -/
def fallbackScan (text : List Char) : Option (List Char) :=
  let draft_lines := fallbackScanAux (splitLines text) false []
  if draft_lines.isEmpty then none else some (pyStrip (joinNL draft_lines))

/-- Extraction attempted on a single thread message that contains the draft
marker (lines 171-200): the regex path first, and the line-scan fallback
when the regex does not match or its group is empty after stripping. -/
def extractDraft (text : List Char) : Option (List Char) :=
  match reSearchDraft text with
  | some content =>
    let draft := pyStrip content
    if draft.isEmpty then fallbackScan text else some draft
  | none => fallbackScan text

/-- Per-message step of the loop in `get_last_draft_from_thread`: messages
without the marker are skipped (lines 167-169). -/
def considerMsgDraft (text : List Char) : Option (List Char) :=
  if occursB DRAFT_MARK text then extractDraft text else none

/-- The scan of `get_last_draft_from_thread` over `reversed(thread_messages)`. -/
def lastDraftAux : List (List Char) → Option (List Char)
  | [] => none
  | text :: rest =>
    match considerMsgDraft text with
    | some draft => some draft
    | none => lastDraftAux rest

/-- Transliteration of `get_last_draft_from_thread`, taking the texts of the
thread messages (each Python dict contributes `msg.get("text", "")`). -/
def get_last_draft_from_thread (thread_messages : List (List Char)) : Option (List Char) :=
  lastDraftAux thread_messages.reverse

/-! ### Transport and generation environment

Slack messages are modelled by `RawMsg`; the chat transport and the
generation backend are modelled by `Env`.  Calls that the Python code wraps
in `try/except SlackApiError` are modelled by `Except`-returning fields,
with the catching wrapper functions below. -/

/-- A Slack message as the service reads it: `ts`, `text`, `reply_count`. -/
structure RawMsg where
  ts : List Char
  text : List Char
  reply_count : Nat
  deriving DecidableEq, Repr

/-- A generation-backend exception: Python `type(e).__name__` and `str(e)`. -/
structure GenErr where
  name : List Char
  msg : List Char
  deriving DecidableEq, Repr

/-- The external collaborators.  `gen k` is the outcome of the `k`-th
generation attempt of a request (Python `generate_content`); `history`,
`threadOf` and `post` model the Slack Web API calls, with `Except.error`
standing for a raised `SlackApiError`. -/
structure Env where
  history : Nat → Except Unit (List RawMsg)
  threadOf : List Char → Except Unit (List RawMsg)
  post : List Char → List Char → Except Unit Unit
  gen : Nat → Except GenErr (List Char)
  botId : List Char

/-- The lower bound passed to `conversations_history` (line 96):
a fixed six-hour lookback from the current time. -/
def lookbackOldest (now : Nat) : Nat := now - 21600

/-- Transliteration of `get_recent_messages` (lines 92-107): fetch with the
six-hour lookback; a `SlackApiError` is caught and yields `[]`. -/
def getRecentMessages (env : Env) (now : Nat) : List RawMsg :=
  match env.history (lookbackOldest now) with
  | Except.ok msgs => msgs
  | Except.error _ => []

/-- Transliteration of `get_thread_messages` (lines 147-157): a
`SlackApiError` is caught and yields `[]`. -/
def getThreadMessages (env : Env) (thread_ts : List Char) : List RawMsg :=
  match env.threadOf thread_ts with
  | Except.ok msgs => msgs
  | Except.error _ => []

/-- The mention marker `"<@{bot_user_id}>"`. -/
def mentionPattern (botId : List Char) : List Char :=
  '<' :: '@' :: (botId ++ ['>'])

/-- Transliteration of `contains_bot_mention` (lines 109-114). -/
def contains_bot_mention (env : Env) (text : List Char) : Bool :=
  if env.botId.isEmpty then false
  else occursB (mentionPattern env.botId) text

/-- The refinement-command vocabulary (the keys of `self.commands`). -/
def commandKeys : List (List Char) :=
  [("shorter").toList, ("longer").toList, ("formal").toList,
   ("casual").toList, ("rewrite").toList]

/-- Model of Python `str.rstrip(".,!?;:")`. -/
def rstripPunct (l : List Char) : List Char :=
  (l.reverse.dropWhile
    (fun c => c == '.' || c == ',' || c == '!' || c == '?' || c == ';' || c == ':')).reverse

/-- Transliteration of `parse_command` (lines 116-145): the first
whitespace-delimited word after the mention, lowercased with trailing
punctuation removed, matched against the command vocabulary; anything else
(including a bare mention) is a `"draft"` request. -/
def parse_command (env : Env) (text : List Char) : Option (List Char) :=
  if env.botId.isEmpty then none
  else
    match splitOnFirst (mentionPattern env.botId) text with
    | none => none
    | some (_, after_mention) =>
      let text_after_mention := lowerL (pyStrip after_mention)
      if text_after_mention.isEmpty then some (("draft").toList)
      else
        let first_word := rstripPunct (text_after_mention.takeWhile (fun c => !(isPySpace c)))
        if commandKeys.contains first_word then some first_word
        else some (("draft").toList)

/-! ### Generation with retries (`draft_response` and `refine_draft`) -/

/-- The user-visible placeholder after exhausting rate-limit retries. -/
def RATE_LIMIT_TEXT : List Char :=
  ("[Error: Rate limit exceeded - please try again in a few minutes]").toList

/-- The immediate placeholder for a non-rate-limit drafting error. -/
def draftErrorText (name : List Char) : List Char :=
  ("[Error: Could not generate draft - ").toList ++ name ++ [']']

/-- The immediate placeholder for a non-rate-limit refinement error. -/
def refineErrorText (name : List Char) : List Char :=
  ("[Error: Could not refine draft - ").toList ++ name ++ [']']

/-- The rate-limit test of lines 330 and 382: `"429" in msg`, or `"quota"`
or `"rate"` in the lowercased message. -/
def is_rate_limit_error (error_msg : List Char) : Bool :=
  occursB (("429").toList) error_msg
    || occursB (("quota").toList) (lowerL error_msg)
    || occursB (("rate").toList) (lowerL error_msg)

/-- Transliteration of `draft_response` (lines 289-340).  Returns the draft
text together with the list of back-off delays slept (seconds).  The email
and classification shape the prompt only, which the oracle abstracts. -/
def draft_response (env : Env) (email_data : ParsedEmail) (classification : Classification)
    (retry_count : Nat) : List Char × List Nat :=
  match env.gen retry_count with
  | Except.ok txt => (pyStrip txt, [])
  | Except.error e =>
    if is_rate_limit_error e.msg then
      if retry_count < 3 then
        let wait_time := 2 * 2 ^ retry_count
        let r := draft_response env email_data classification (retry_count + 1)
        (r.1, wait_time :: r.2)
      else (RATE_LIMIT_TEXT, [])
    else (draftErrorText e.name, [])
  termination_by 3 - retry_count
  decreasing_by omega

/-- Transliteration of `refine_draft` (lines 342-392), with the same retry
structure as `draft_response`. -/
def refine_draft (env : Env) (original_draft : List Char) (command : List Char)
    (email_data : ParsedEmail) (retry_count : Nat) : List Char × List Nat :=
  match env.gen retry_count with
  | Except.ok txt => (pyStrip txt, [])
  | Except.error e =>
    if is_rate_limit_error e.msg then
      if retry_count < 3 then
        let wait_time := 2 * 2 ^ retry_count
        let r := refine_draft env original_draft command email_data (retry_count + 1)
        (r.1, wait_time :: r.2)
      else (RATE_LIMIT_TEXT, [])
    else (refineErrorText e.name, [])
  termination_by 3 - retry_count
  decreasing_by omega

/-! ### Posting and mention processing -/

/-- The reply text posted by `post_draft_reply` (lines 394-405). -/
def draftReplyText (draft : List Char) (classification : Classification)
    (is_refinement : Bool) : List Char :=
  (if occursB (("URGENT").toList) classification.priority
    then (":rotating_light:").toList else (":memo:").toList)
  ++ (" *Draft Response*").toList
  ++ (if is_refinement then (" _(refined)_").toList else [])
  ++ ('\n' :: '\n' :: draft)
  ++ ('\n' :: '\n' :: ("---").toList)
  ++ ('\n' :: ("_Reply with @CHFSDraftBot + command to refine:_").toList)
  ++ ('\n' :: ("`shorter` · `longer` · `formal` · `casual` · `rewrite`").toList)

/-- The warning posted when no email notification is found in the thread. -/
def NO_EMAIL_WARNING : List Char :=
  (":warning: I could not find an email in this thread. Tag me on an email notification thread to draft a response.").toList

/-- An action taken inside `process_mention`. -/
inductive MAct where
  | posted (thread_ts text : List Char) (ok : Bool)
  deriving DecidableEq, Repr

/-- Attempt a `chat_postMessage`; the `SlackApiError` is caught and logged
(lines 407-415 and 437-444), recorded here as the `ok` flag. -/
def postAct (env : Env) (thread_ts text : List Char) : MAct :=
  MAct.posted thread_ts text
    (match env.post thread_ts text with
     | Except.ok _ => true
     | Except.error _ => false)

/-- Transliteration of `process_mention` (lines 417-467), returning the list
of posts attempted. -/
def process_mention (env : Env) (msg_ts msg_text target_thread : List Char) : List MAct :=
  let command := parse_command env msg_text
  let thread_messages := getThreadMessages env target_thread
  match thread_messages.findSome? (fun tm => parse_email_from_message tm.text) with
  | none => [postAct env target_thread NO_EMAIL_WARNING]
  | some email_data =>
    let classification := classify_email email_data
    match command with
    | some c =>
      if c ≠ ("draft").toList && commandKeys.contains c then
        match get_last_draft_from_thread (thread_messages.map RawMsg.text) with
        | some last_draft =>
          let refined := (refine_draft env last_draft c email_data 0).1
          [postAct env target_thread (draftReplyText refined classification true)]
        | none =>
          let draft := (draft_response env email_data classification 0).1
          [postAct env target_thread (draftReplyText draft classification false)]
      else
        let draft := (draft_response env email_data classification 0).1
        [postAct env target_thread (draftReplyText draft classification false)]
    | none =>
      let draft := (draft_response env email_data classification 0).1
      [postAct env target_thread (draftReplyText draft classification false)]

/-! ### The poll cycle (`process_messages`, lines 469-512) -/

/-- Append to the processed-messages deque, which has `maxlen=500`:
when full, the oldest element (the head) is evicted. -/
def appendBounded (q : List (List Char)) (x : List Char) : List (List Char) :=
  let q' := q ++ [x]
  if 500 < q'.length then q'.drop (q'.length - 500) else q'

/-- The mutable service state that survives across poll cycles:
`processed_messages` and `last_check_ts`. -/
structure SState where
  processed : List (List Char)
  last_check_ts : Nat
  deriving DecidableEq, Repr

/-- One trace entry of a poll cycle, recording how one scanned message was
handled: skipped as already processed, marked seen, left untouched, or sent
to mention processing (with the posts attempted there). -/
inductive Act where
  | already (m : RawMsg)
  | seen (m : RawMsg)
  | ignored (m : RawMsg)
  | mention (m : RawMsg) (sub : List MAct)
  deriving DecidableEq, Repr

/-- The message a trace entry is about. -/
def Act.msgOf : Act → RawMsg
  | Act.already m => m
  | Act.seen m => m
  | Act.ignored m => m
  | Act.mention m _ => m

/-- Handling of one thread reply (lines 482-498): skip if processed, mark
own draft responses seen, process unseen mentions. -/
def handleThreadMsg (env : Env) (parent_ts : List Char) (processed : List (List Char))
    (tm : RawMsg) : List (List Char) × Act :=
  if processed.contains tm.ts then (processed, Act.already tm)
  else if occursB DRAFT_MARK tm.text then (appendBounded processed tm.ts, Act.seen tm)
  else if contains_bot_mention env tm.text then
    (appendBounded processed tm.ts,
      Act.mention tm (process_mention env tm.ts tm.text parent_ts))
  else (processed, Act.ignored tm)

/-- The scan over a thread's messages (lines 481-498). -/
def runThread (env : Env) (parent_ts : List Char) :
    List (List Char) → List RawMsg → List (List Char) × List Act
  | processed, [] => (processed, [])
  | processed, tm :: rest =>
    let step := handleThreadMsg env parent_ts processed tm
    let next := runThread env parent_ts step.1 rest
    (next.1, step.2 :: next.2)

/-- Handling of one top-level message (lines 473-508): scan its thread when
it has replies, then apply the draft-marker / mention / default handling to
the message itself. -/
def handleTop (env : Env) (processed : List (List Char)) (m : RawMsg) :
    List (List Char) × List Act :=
  let threadStep :=
    if 0 < m.reply_count then runThread env m.ts processed (getThreadMessages env m.ts)
    else (processed, [])
  let p1 := threadStep.1
  if !(p1.contains m.ts) then
    if occursB DRAFT_MARK m.text then
      (appendBounded p1 m.ts, threadStep.2 ++ [Act.seen m])
    else if contains_bot_mention env m.text then
      (appendBounded p1 m.ts,
        threadStep.2 ++ [Act.mention m (process_mention env m.ts m.text m.ts)])
    else (appendBounded p1 m.ts, threadStep.2 ++ [Act.seen m])
  else (p1, threadStep.2 ++ [Act.already m])

/-- The per-message loop of `process_messages` (lines 473-508). -/
def runMsgs (env : Env) : List (List Char) → List RawMsg → List (List Char) × List Act
  | processed, [] => (processed, [])
  | processed, m :: rest =>
    let step := handleTop env processed m
    let next := runMsgs env step.1 rest
    (next.1, step.2 ++ next.2)

/-- Transliteration of `process_messages` (lines 469-512): fetch the recent
window, run the per-message loop, and set `last_check_ts` to the current
time.  `now_fetch` and `now_end` are the two `time.time()` readings. -/
def process_messages (env : Env) (now_fetch now_end : Nat) (st : SState) :
    SState × List Act :=
  let msgs := getRecentMessages env now_fetch
  let run := runMsgs env st.processed msgs
  (⟨run.1, now_end⟩, run.2)

/-- A sequence of poll cycles of the `run` loop (lines 550-556), each with
its own environment and clock readings. -/
def runCycles : List (Env × Nat × Nat) → SState → SState
  | [], st => st
  | (env, now_fetch, now_end) :: rest, st =>
    runCycles rest (process_messages env now_fetch now_end st).1

/-! ### Spec-side definitions used to state refinement counterexamples.

These definitions follow the wording of the specification claims, not the
code; they are compared against the transliterated definitions above. -/

/-- Claimed category assignment of claim C3, following the claim words: the
first rule in the fixed order whose keyword set has a member appearing in
the subject or in the body (tested per field, not on the concatenation). -/
def specClaimCategory (e : ParsedEmail) : List Char :=
  let subject := lowerL e.subject
  let body := lowerL e.body
  let hit := fun (kws : List (List Char)) =>
    kws.any (fun kw => occursB kw subject || occursB kw body)
  if hit scheduling_keywords then ("scheduling").toList
  else if hit question_keywords then ("question").toList
  else if hit request_keywords then ("request").toList
  else if hit fyi_keywords then ("fyi").toList
  else if hit acknowledgment_keywords then ("acknowledgment").toList
  else ("general").toList

/-- Claimed single-message extraction of claim C5, following the claim
words: the primary regex result when the primary pattern matches
(an empty span then means no draft), and the line-scan fallback only when
the primary pattern does not match. -/
def specClaimExtract (text : List Char) : Option (List Char) :=
  if occursB DRAFT_MARK text then
    match reSearchDraft text with
    | some content =>
      let draft := pyStrip content
      if draft.isEmpty then none else some draft
    | none => fallbackScan text
  else none

/-- The two-stage split of claim C1 on an already-extracted first line:
split on `" | Body Preview: "` first, then the remainder on
`" | Subject: "`, yielding (sender, subject, body) fields. -/
def twoStageSplit (first_line : List Char) :
    Option (List Char × List Char × List Char) :=
  match splitOnFirst BODY_MARK first_line with
  | none => none
  | some (before_body, body_part) =>
    match splitOnFirst SUBJECT_MARK before_body with
    | none => none
    | some (from_part, subject_part) => some (from_part, subject_part, body_part)

/-! ### Derived classifier tests and concrete environments used in the theorems -/

/-- The urgency test of `classify_email` line 260: some urgency keyword is a
case-insensitive substring of the subject or of the body. -/
def urgencyHit (e : ParsedEmail) : Bool :=
  urgent_keywords.any (fun kw => occursB kw (lowerL e.subject) || occursB kw (lowerL e.body))

/-- A keyword set hit against the concatenation of the lowercased subject
and body, exactly the haystack `subject + body` used by lines 272-281. -/
def categoryHit (kws : List (List Char)) (e : ParsedEmail) : Bool :=
  kws.any (fun kw => occursB kw (lowerL e.subject ++ lowerL e.body))

/-- The concrete environment used for the watermark counterexample: the
transport serves one message only when queried with the six-hour-lookback
bound `78430`, which distinguishes which lower bound the fetch uses. -/
def watermarkEnv : Env where
  history := fun oldest =>
    if oldest == 78430 then Except.ok [⟨("1001.0").toList, ("hello").toList, 0⟩]
    else Except.ok []
  threadOf := fun _ => Except.ok []
  post := fun _ _ => Except.ok ()
  gen := fun _ => Except.ok (("ok").toList)
  botId := []

/-- An environment whose generation backend is always rate limited. -/
def rateLimitedEnv : Env where
  history := fun _ => Except.ok []
  threadOf := fun _ => Except.ok []
  post := fun _ _ => Except.ok ()
  gen := fun _ =>
    Except.error ⟨("ClientError").toList, ("429 RESOURCE_EXHAUSTED").toList⟩
  botId := []

/-- An environment whose generation backend fails with a non-rate-limit
error. -/
def brokenGenEnv : Env where
  history := fun _ => Except.ok []
  threadOf := fun _ => Except.ok []
  post := fun _ _ => Except.ok ()
  gen := fun _ => Except.error ⟨("ValueError").toList, ("boom").toList⟩
  botId := []

/-- A cycle in which everything that can fail does fail: the thread fetch
and the posts raise transport errors, generation is rate limited, and the
first message is a mention whose handling encounters all of them. -/
def failingEnv : Env where
  history := fun _ => Except.ok
    [⟨("1.0").toList, ("<@B1> please draft").toList, 3⟩,
     ⟨("2.0").toList, ("second message").toList, 0⟩]
  threadOf := fun _ => Except.error ()
  post := fun _ _ => Except.error ()
  gen := fun _ => Except.error ⟨("ClientError").toList, ("429 quota").toList⟩
  botId := ("B1").toList

/-- An environment with a top-level message that contains both the draft
marker and the bot mention. -/
def markerMentionEnv : Env where
  history := fun _ => Except.ok
    [⟨("7.0").toList, (":memo: *Draft Response* <@B1>\n\nhello\n\n---").toList, 0⟩]
  threadOf := fun _ => Except.ok []
  post := fun _ _ => Except.ok ()
  gen := fun _ => Except.ok (("ok").toList)
  botId := ("B1").toList

/-! ### Basic lemmas about the string-operation models -/

theorem startsWith_iff (p s : List Char) :
    startsWith p s = true ↔ ∃ r, s = p ++ r := by
  induction p generalizing s with
  | nil => simp [startsWith]
  | cons ph pt ih =>
    cases s with
    | nil => simp [startsWith]
    | cons c cs =>
      simp only [startsWith, Bool.and_eq_true, beq_iff_eq]
      constructor
      · rintro ⟨rfl, h⟩
        obtain ⟨r, rfl⟩ := (ih cs).mp h
        exact ⟨r, rfl⟩
      · rintro ⟨r, hr⟩
        rw [List.cons_append] at hr
        injection hr with h1 h2
        exact ⟨h1.symm, (ih cs).mpr ⟨r, h2⟩⟩

theorem splitOnFirst_of_startsWith (pat s : List Char) (h : startsWith pat s = true) :
    splitOnFirst pat s = some ([], s.drop pat.length) := by
  cases s with
  | nil => simp [splitOnFirst, h]
  | cons c cs => simp [splitOnFirst, h]

theorem splitOnFirst_sound (pat : List Char) :
    ∀ s a b, splitOnFirst pat s = some (a, b) → s = a ++ pat ++ b := by
  intro s
  induction s with
  | nil =>
    intro a b h
    simp only [splitOnFirst] at h
    by_cases hs : startsWith pat [] = true
    · rw [if_pos hs] at h
      obtain ⟨r, hr⟩ := (startsWith_iff pat []).mp hs
      rcases List.append_eq_nil.mp hr.symm with ⟨h1, h2⟩
      injection h with h3
      injection h3 with h4 h5
      simp [← h4, ← h5, h1]
    · rw [if_neg hs] at h
      exact absurd h (by simp)
  | cons c cs ih =>
    intro a b h
    simp only [splitOnFirst] at h
    by_cases hs : startsWith pat (c :: cs) = true
    · rw [if_pos hs] at h
      obtain ⟨r, hr⟩ := (startsWith_iff pat (c :: cs)).mp hs
      injection h with h3
      injection h3 with h4 h5
      subst h4
      rw [hr, List.drop_left] at h5
      rw [hr, ← h5]
      simp
    · rw [if_neg hs] at h
      cases hrec : splitOnFirst pat cs with
      | none => rw [hrec] at h; exact absurd h (by simp)
      | some pr =>
        rw [hrec] at h
        obtain ⟨a', b'⟩ := pr
        simp only [Option.map_some'] at h
        injection h with h3
        injection h3 with h4 h5
        have := ih a' b' hrec
        subst h4 h5
        simp [this]

theorem occursB_of_parts (pat a b : List Char) :
    occursB pat (a ++ pat ++ b) = true := by
  induction a with
  | nil =>
    have h : startsWith pat (pat ++ b) = true := (startsWith_iff _ _).mpr ⟨b, rfl⟩
    simp only [occursB, List.nil_append]
    rw [splitOnFirst_of_startsWith _ _ h]
    rfl
  | cons c a ih =>
    have ih2 : (splitOnFirst pat (a ++ (pat ++ b))).isSome = true := by
      simpa [occursB, List.append_assoc] using ih
    simp only [occursB, List.cons_append, List.append_assoc]
    by_cases hs : startsWith pat (c :: (a ++ (pat ++ b))) = true
    · rw [splitOnFirst_of_startsWith _ _ hs]; rfl
    · simp only [splitOnFirst]
      rw [if_neg hs]
      cases h2 : splitOnFirst pat (a ++ (pat ++ b)) with
      | none => rw [h2] at ih2; exact absurd ih2 (by simp)
      | some pr => simp

theorem occursB_iff_parts (pat s : List Char) :
    occursB pat s = true ↔ ∃ a b, s = a ++ pat ++ b := by
  constructor
  · intro h
    simp only [occursB, Option.isSome_iff_exists] at h
    obtain ⟨⟨a, b⟩, hab⟩ := h
    exact ⟨a, b, splitOnFirst_sound pat s a b hab⟩
  · rintro ⟨a, b, rfl⟩
    exact occursB_of_parts pat a b

theorem splitOnFirst_first (pat x y : List Char)
    (h : ∀ u v, x = u ++ v → v ≠ [] → startsWith pat (v ++ pat ++ y) = false) :
    splitOnFirst pat (x ++ pat ++ y) = some (x, y) := by
  induction x with
  | nil =>
    have hs : startsWith pat (pat ++ y) = true := (startsWith_iff _ _).mpr ⟨y, rfl⟩
    simp only [List.nil_append]
    rw [splitOnFirst_of_startsWith _ _ hs, List.drop_left]
  | cons c x ih =>
    have hcx : startsWith pat ((c :: x) ++ pat ++ y) = false :=
      h [] (c :: x) rfl (by simp)
    simp only [List.cons_append, List.append_assoc] at hcx ⊢
    simp only [splitOnFirst]
    rw [if_neg (by simp [hcx])]
    have ihx := ih (fun u v huv hv => h (c :: u) v (by rw [huv]; rfl) hv)
    rw [← List.append_assoc, ihx]
    rfl

theorem mem_dropWhile (p : Char → Bool) (l : List Char) (c : Char)
    (h : c ∈ l.dropWhile p) : c ∈ l :=
  (List.dropWhile_sublist _).mem h

theorem mem_pyStrip (l : List Char) (c : Char) (h : c ∈ pyStrip l) : c ∈ l := by
  simp only [pyStrip, dropTrailing, dropLeading] at h
  rw [List.mem_reverse] at h
  have h2 := mem_dropWhile _ _ _ h
  rw [List.mem_reverse] at h2
  exact mem_dropWhile _ _ _ h2

theorem head?_dropWhile_false (p : Char → Bool) (l : List Char) (c : Char)
    (h : (l.dropWhile p).head? = some c) : p c = false := by
  induction l with
  | nil => simp at h
  | cons a l ih =>
    by_cases hp : p a = true
    · rw [List.dropWhile_cons_of_pos hp] at h
      exact ih h
    · rw [List.dropWhile_cons_of_neg hp] at h
      simp only [List.head?_cons, Option.some.injEq] at h
      rw [← h]
      exact Bool.not_eq_true _ ▸ (by simpa using hp)

theorem dropWhile_eq_self_of_head (p : Char → Bool) (l : List Char)
    (h : ∀ c, l.head? = some c → p c = false) : l.dropWhile p = l := by
  cases l with
  | nil => rfl
  | cons a l =>
    have := h a rfl
    rw [List.dropWhile_cons_of_neg (by simp [this])]

theorem dropTrailing_parts (l : List Char) : ∃ r, l = dropTrailing l ++ r := by
  refine ⟨(l.reverse.takeWhile isPySpace).reverse, ?_⟩
  simp only [dropTrailing]
  rw [← List.reverse_append, List.takeWhile_append_dropWhile, List.reverse_reverse]

theorem pyStrip_head_not_space (l : List Char) (c : Char)
    (h : (pyStrip l).head? = some c) : isPySpace c = false := by
  simp only [pyStrip] at h
  obtain ⟨r, hr⟩ := dropTrailing_parts (dropLeading l)
  have hne : dropTrailing (dropLeading l) ≠ [] := by
    intro hnil
    rw [hnil] at h
    simp at h
  have hh : (dropLeading l).head? = some c := by
    rw [hr, List.head?_append, h]
    rfl
  exact head?_dropWhile_false isPySpace l c hh

theorem pyStrip_last_not_space (l : List Char) (c : Char)
    (h : (pyStrip l).getLast? = some c) : isPySpace c = false := by
  simp only [pyStrip, dropTrailing] at h
  rw [List.getLast?_reverse] at h
  exact head?_dropWhile_false isPySpace (dropLeading l).reverse c h

theorem pyStrip_eq_self (l : List Char)
    (h1 : ∀ c, l.head? = some c → isPySpace c = false)
    (h2 : ∀ c, l.getLast? = some c → isPySpace c = false) : pyStrip l = l := by
  have e1 : dropLeading l = l := dropWhile_eq_self_of_head _ _ h1
  simp only [pyStrip, e1, dropTrailing]
  have e2 : l.reverse.dropWhile isPySpace = l.reverse := by
    apply dropWhile_eq_self_of_head
    intro c hc
    rw [List.head?_reverse] at hc
    exact h2 c hc
  rw [e2, List.reverse_reverse]

theorem pyStrip_idem (l : List Char) : pyStrip (pyStrip l) = pyStrip l :=
  pyStrip_eq_self _ (pyStrip_head_not_space l) (pyStrip_last_not_space l)

theorem pyStrip_eq_nil_all_space (l : List Char) (h : pyStrip l = []) :
    ∀ c ∈ l, isPySpace c = true := by
  intro c hc
  simp only [pyStrip, dropTrailing] at h
  have h2 : (dropLeading l).reverse.dropWhile isPySpace = [] := by
    have := congrArg List.reverse h
    simpa using this
  rw [List.dropWhile_eq_nil_iff] at h2
  by_cases hmem : c ∈ dropLeading l
  · exact h2 c (List.mem_reverse.mpr hmem)
  · have hsplit := List.takeWhile_append_dropWhile (p := isPySpace) (l := l)
    rw [← hsplit] at hc
    rcases List.mem_append.mp hc with htk | hdr
    · exact List.mem_takeWhile_imp htk
    · exact absurd hdr hmem

theorem pyStrip_ne_nil (l : List Char) (c : Char) (hc : c ∈ l)
    (hcs : isPySpace c = false) : pyStrip l ≠ [] := by
  intro h
  rw [pyStrip_eq_nil_all_space l h c hc] at hcs
  exact absurd hcs (by simp)

/-! ### Claim C2: priority assignment -/

/-- Claim C2: `classify_email` assigns priority `"URGENT - FROM LAURA"` if
and only if the sender case-insensitively contains one of the priority
substrings, regardless of urgency keywords; otherwise `"URGENT"` if and
only if the subject or body contains an urgency keyword
(case-insensitively); otherwise `"NORMAL"`. -/
theorem classify_email_priority_characterization (e : ParsedEmail) :
    ((classify_email e).priority = ("URGENT - FROM LAURA").toList
      ↔ is_priority_sender e.sender = true)
    ∧ ((classify_email e).priority = ("URGENT").toList
      ↔ (is_priority_sender e.sender = false ∧ urgencyHit e = true))
    ∧ ((classify_email e).priority = ("NORMAL").toList
      ↔ (is_priority_sender e.sender = false ∧ urgencyHit e = false)) := by
  have d1 : (("URGENT - FROM LAURA").toList : List Char) ≠ ("URGENT").toList := by decide
  have d2 : (("URGENT - FROM LAURA").toList : List Char) ≠ ("NORMAL").toList := by decide
  have d3 : (("URGENT").toList : List Char) ≠ ("NORMAL").toList := by decide
  by_cases hp : is_priority_sender e.sender = true
  · constructor
    · simp [classify_email, hp]
    · constructor
      · simp [classify_email, hp, d1]
      · simp [classify_email, hp, d2]
  · have hp' : is_priority_sender e.sender = false := by
      simpa using hp
    by_cases hu : urgencyHit e = true
    · have hu' : urgent_keywords.any
          (fun kw => occursB kw (lowerL e.subject) || occursB kw (lowerL e.body)) = true := hu
      constructor
      · simp [classify_email, hp', hu', d1.symm]
      · constructor
        · simp [classify_email, hp', hu', hu]
        · simp [classify_email, hp', hu', hu, d3]
    · have hu' : urgent_keywords.any
          (fun kw => occursB kw (lowerL e.subject) || occursB kw (lowerL e.body)) = false := by
        simpa [urgencyHit] using hu
      have hu2 : urgencyHit e = false := by simpa [urgencyHit] using hu
      constructor
      · simp [classify_email, hp', hu', d2.symm]
      · constructor
        · simp [classify_email, hp', hu', hu2, d3.symm]
        · simp [classify_email, hp', hu', hu2]

/-- Witness for C2: a sender containing `"Laura.Paris"` (mixed case) with no
urgency keywords is still classified `"URGENT - FROM LAURA"`. -/
theorem classify_email_priority_witness :
    (classify_email ⟨("Laura.Paris@chfs.org").toList, ("Lunch").toList,
        ("See you soon").toList⟩).priority = ("URGENT - FROM LAURA").toList :=
  (classify_email_priority_characterization _).1.mpr (by decide)

/-! ### Claim C3: category assignment -/

/-- Claim C3 as amended: the category is the first rule in the fixed order
scheduling, question, request, fyi, acknowledgment whose keyword set has a
member occurring case-insensitively in the concatenation `subject + body`
(a keyword may span the subject-body boundary), and `"general"` otherwise;
an email whose text contains both `"meeting"` and `"thank you"` is
classified `"scheduling"`; and the classifier is a pure function. -/
theorem classify_email_category_characterization (e : ParsedEmail) :
    ((classify_email e).email_type = ("scheduling").toList
      ↔ categoryHit scheduling_keywords e = true)
    ∧ ((classify_email e).email_type = ("question").toList
      ↔ (categoryHit scheduling_keywords e = false ∧ categoryHit question_keywords e = true))
    ∧ ((classify_email e).email_type = ("request").toList
      ↔ (categoryHit scheduling_keywords e = false ∧ categoryHit question_keywords e = false
          ∧ categoryHit request_keywords e = true))
    ∧ ((classify_email e).email_type = ("fyi").toList
      ↔ (categoryHit scheduling_keywords e = false ∧ categoryHit question_keywords e = false
          ∧ categoryHit request_keywords e = false ∧ categoryHit fyi_keywords e = true))
    ∧ ((classify_email e).email_type = ("acknowledgment").toList
      ↔ (categoryHit scheduling_keywords e = false ∧ categoryHit question_keywords e = false
          ∧ categoryHit request_keywords e = false ∧ categoryHit fyi_keywords e = false
          ∧ categoryHit acknowledgment_keywords e = true))
    ∧ ((classify_email e).email_type = ("general").toList
      ↔ (categoryHit scheduling_keywords e = false ∧ categoryHit question_keywords e = false
          ∧ categoryHit request_keywords e = false ∧ categoryHit fyi_keywords e = false
          ∧ categoryHit acknowledgment_keywords e = false))
    ∧ (classify_email e = classify_email e)
    ∧ (classify_email ⟨("a").toList, ("plans").toList,
        ("the meeting went well, thank you").toList⟩).email_type = ("scheduling").toList := by
  by_cases h1 : categoryHit scheduling_keywords e = true <;>
    by_cases h2 : categoryHit question_keywords e = true <;>
      by_cases h3 : categoryHit request_keywords e = true <;>
        by_cases h4 : categoryHit fyi_keywords e = true <;>
          by_cases h5 : categoryHit acknowledgment_keywords e = true <;>
  · simp only [categoryHit] at h1 h2 h3 h4 h5
    refine ⟨?_, ?_, ?_, ?_, ?_, ?_, rfl, by decide⟩ <;>
      simp [classify_email, categoryHit, h1, h2, h3, h4, h5]

/-- Counterexample to C3 as stated: with subject `"ti"` and body `"me"`, no
category keyword occurs in the subject or in the body (so the claimed rule
yields `"general"`), yet the code classifies the email as `"scheduling"`
because `"time"` occurs in the concatenation `subject + body`. -/
theorem classify_email_category_counterexample :
    (classify_email ⟨("a").toList, ("ti").toList, ("me").toList⟩).email_type
      = ("scheduling").toList
    ∧ specClaimCategory ⟨("a").toList, ("ti").toList, ("me").toList⟩
      = ("general").toList := by
  constructor
  · decide
  · decide

/-- Witness for C3: an email whose body contains both `"meeting"` and
`"thank you"` is classified `"scheduling"`, not `"acknowledgment"`. -/
theorem classify_email_category_witness :
    (classify_email ⟨("bob").toList, ("recap").toList,
        ("about the meeting, thank you all").toList⟩).email_type = ("scheduling").toList :=
  (classify_email_category_characterization _).1.mpr (by decide)

/-! ### Claim C1: parser success and failure conditions -/

/-- Claim C1 as amended: `parse_email_from_message` returns `none` exactly
when the stripped first line lacks either marker, or when the two-stage
split fails (the remainder before the first `" | Body Preview: "` has no
`" | Subject: "` marker, the caught `ValueError`), or when the sender or
subject field is empty after trimming; in every other case it returns the
trimmed fields, with an empty body replaced by `"(No preview)"`. -/
theorem parse_email_characterization (t : List Char) :
    (parse_email_from_message t = none ↔
      (occursB SUBJECT_MARK (pyStrip (firstLineOf t)) = false
        ∨ occursB BODY_MARK (pyStrip (firstLineOf t)) = false
        ∨ twoStageSplit (pyStrip (firstLineOf t)) = none
        ∨ (∃ fp sp bp, twoStageSplit (pyStrip (firstLineOf t)) = some (fp, sp, bp)
            ∧ (pyStrip fp = [] ∨ pyStrip sp = []))))
    ∧ (∀ fp sp bp, twoStageSplit (pyStrip (firstLineOf t)) = some (fp, sp, bp) →
        pyStrip fp ≠ [] → pyStrip sp ≠ [] →
        parse_email_from_message t
          = some ⟨pyStrip fp, pyStrip sp,
              if (pyStrip bp).isEmpty then NO_PREVIEW else pyStrip bp⟩) := by
  set fl := pyStrip (firstLineOf t) with hfl
  by_cases hS : occursB SUBJECT_MARK fl = true
  · by_cases hB : occursB BODY_MARK fl = true
    · cases hsb : splitOnFirst BODY_MARK fl with
      | none => exact absurd hB (by simp [occursB, hsb])
      | some pr1 =>
        obtain ⟨bb, bp0⟩ := pr1
        cases hss : splitOnFirst SUBJECT_MARK bb with
        | none =>
          constructor
          · unfold parse_email_from_message
            rw [← hfl, if_pos (by rw [hS, hB]; rfl)]
            simp only [hsb, hss]
            simp [twoStageSplit, hsb, hss]
          · intro fp sp bp htwo
            rw [twoStageSplit, hsb] at htwo
            simp only [hss] at htwo
            exact absurd htwo (by simp)
        | some pr2 =>
          obtain ⟨fp0, sp0⟩ := pr2
          have htwo : twoStageSplit fl = some (fp0, sp0, bp0) := by
            simp only [twoStageSplit, hsb, hss]
          constructor
          · unfold parse_email_from_message
            rw [← hfl, if_pos (by rw [hS, hB]; rfl)]
            simp only [hsb, hss]
            by_cases hempty : ((pyStrip fp0).isEmpty || (pyStrip sp0).isEmpty) = true
            · rw [if_pos hempty]
              simp only [true_iff]
              refine Or.inr (Or.inr (Or.inr ⟨fp0, sp0, bp0, htwo, ?_⟩))
              rcases Bool.or_eq_true_iff.mp hempty with h | h
              · exact Or.inl (List.isEmpty_iff.mp h)
              · exact Or.inr (List.isEmpty_iff.mp h)
            · rw [if_neg hempty]
              simp only [Option.some_ne_none, false_iff]
              push_neg
              refine ⟨by simpa using hS, by simpa using hB, by simp [htwo], ?_⟩
              intro fp sp bp h
              rw [htwo] at h
              injection h with h2
              injection h2 with e1 h3
              injection h3 with e2 e3
              subst e1 e2
              constructor
              · intro h4
                rw [h4] at hempty
                simp at hempty
              · intro h4
                rw [h4] at hempty
                simp at hempty
          · intro fp sp bp h hfp hsp
            rw [htwo] at h
            obtain ⟨e1, e2, e3⟩ : fp0 = fp ∧ sp0 = sp ∧ bp0 = bp := by
              injection h with h2
              injection h2 with a b
              injection b with c d
              exact ⟨a, c, d⟩
            subst e1
            subst e2
            subst e3
            unfold parse_email_from_message
            rw [← hfl, if_pos (by rw [hS, hB]; rfl)]
            simp only [hsb, hss]
            rw [if_neg (by simp [List.isEmpty_iff, hfp, hsp])]
    · have hB' : occursB BODY_MARK fl = false := by simpa using hB
      constructor
      · unfold parse_email_from_message
        rw [← hfl, if_neg (by rw [hB']; simp)]
        simp [hB']
      · intro fp sp bp htwo
        cases hsb : splitOnFirst BODY_MARK fl with
        | none =>
          rw [twoStageSplit, hsb] at htwo
          exact absurd htwo (by simp)
        | some pr => exact absurd hB (by simp [occursB, hsb])
  · have hS' : occursB SUBJECT_MARK fl = false := by simpa using hS
    constructor
    · unfold parse_email_from_message
      rw [← hfl, if_neg (by rw [hS']; simp)]
      simp [hS']
    · intro fp sp bp htwo
      cases hsb : splitOnFirst BODY_MARK fl with
      | none =>
        rw [twoStageSplit, hsb] at htwo
        exact absurd htwo (by simp)
      | some pr =>
        obtain ⟨bb, bp0⟩ := pr
        cases hss : splitOnFirst SUBJECT_MARK bb with
        | none =>
          rw [twoStageSplit, hsb] at htwo
          simp only [hss] at htwo
          exact absurd htwo (by simp)
        | some pr2 =>
          have hbb := splitOnFirst_sound _ _ _ _ hsb
          obtain ⟨fp1, sp1⟩ := pr2
          have hbb2 := splitOnFirst_sound _ _ _ _ hss
          have : occursB SUBJECT_MARK fl = true := by
            rw [hbb, hbb2]
            rw [List.append_assoc, List.append_assoc]
            exact occursB_of_parts _ _ _
          exact absurd this hS

/-- Counterexample to C1 as stated: on
`"a | Body Preview: x | Subject: y"` both markers are present in the first
line and the claimed empty-field condition cannot hold (the two-stage split
produces no fields at all, because `" | Subject: "` only occurs after the
`" | Body Preview: "` cut), yet the parser returns `none` via the caught
`ValueError` — a failure case the claim does not allow. -/
theorem parse_email_counterexample :
    parse_email_from_message (("a | Body Preview: x | Subject: y").toList) = none
    ∧ occursB SUBJECT_MARK
        (pyStrip (firstLineOf (("a | Body Preview: x | Subject: y").toList))) = true
    ∧ occursB BODY_MARK
        (pyStrip (firstLineOf (("a | Body Preview: x | Subject: y").toList))) = true
    ∧ twoStageSplit
        (pyStrip (firstLineOf (("a | Body Preview: x | Subject: y").toList))) = none := by
  refine ⟨by decide, by decide, by decide, by decide⟩

/-- Witness for C1: the characterization applied to a concrete
notification text. -/
theorem parse_email_characterization_witness :
    parse_email_from_message (("Jane | Subject: Hi | Body Preview: Yo").toList)
      = some ⟨("Jane").toList, ("Hi").toList, ("Yo").toList⟩ := by
  have h := (parse_email_characterization (("Jane | Subject: Hi | Body Preview: Yo").toList)).2
    (("Jane").toList) (("Hi").toList) (("Yo").toList) (by decide) (by decide) (by decide)
  simpa using h

/-! ### Claim C7: the watermark -/

/-- Counterexample to C7 as stated: after a cycle completing at time
`100000` the watermark is `100000`, but the next listing at time `100030`
uses the fixed six-hour lookback `100030 - 21600 = 78430` as its lower
bound, not the watermark: the fetch returns the message that
`watermarkEnv.history` serves only at bound `78430`, while a fetch bounded
by the watermark would return nothing. -/
theorem watermark_counterexample :
    ((process_messages watermarkEnv 100000 100000 ⟨[], 0⟩).1.last_check_ts = 100000)
    ∧ (process_messages watermarkEnv 100030 100040
        (process_messages watermarkEnv 100000 100000 ⟨[], 0⟩).1).2 ≠ []
    ∧ watermarkEnv.history
        (process_messages watermarkEnv 100000 100000 ⟨[], 0⟩).1.last_check_ts
        = Except.ok []
    ∧ lookbackOldest 100030
        ≠ (process_messages watermarkEnv 100000 100000 ⟨[], 0⟩).1.last_check_ts := by
  refine ⟨by decide, by decide, by rfl, by decide⟩

/-- Claim C7 as amended: on completion of every poll cycle the watermark
`last_check_ts` is advanced to the current time, but it is never read: the
behaviour of a cycle is independent of the stored watermark, and the lower
bound of every listing is the fixed six-hour lookback `now - 21600`. -/
theorem watermark_behavior :
    (∀ env now_fetch now_end st,
      (process_messages env now_fetch now_end st).1.last_check_ts = now_end)
    ∧ (∀ env now_fetch now_end processed t t',
      process_messages env now_fetch now_end ⟨processed, t⟩
        = process_messages env now_fetch now_end ⟨processed, t'⟩)
    ∧ (∀ env now, getRecentMessages env now
        = (match env.history (now - 21600) with
           | Except.ok msgs => msgs
           | Except.error _ => [])) := by
  refine ⟨fun env nf ne st => rfl, fun env nf ne p t t' => rfl, fun env now => rfl⟩

/-- Witness for C7 (amended): the watermark after a concrete cycle. -/
theorem watermark_behavior_witness :
    (process_messages watermarkEnv 500 777 ⟨[], 3⟩).1.last_check_ts = 777 :=
  watermark_behavior.1 watermarkEnv 500 777 ⟨[], 3⟩

/-! ### Claim C8: rate-limit retries with exponential backoff -/

/-- Claim C8: when every generation attempt fails with a rate-limit-class
error (message containing `"429"`, `"quota"` or `"rate"`,
case-insensitively), `draft_response` and `refine_draft` sleep the
exponentially doubling delays 2 s, 4 s, 8 s across at most 3 retries and
then return the rate-limit placeholder; a non-rate-limit generation error
is surfaced immediately as a placeholder with no retry and no sleep. -/
theorem generation_retry_characterization :
    (∀ env e cls,
      (∀ k, k ≤ 3 → ∃ err, env.gen k = Except.error err ∧ is_rate_limit_error err.msg = true) →
      draft_response env e cls 0 = (RATE_LIMIT_TEXT, [2, 4, 8]))
    ∧ (∀ env e cls err, env.gen 0 = Except.error err → is_rate_limit_error err.msg = false →
      draft_response env e cls 0 = (draftErrorText err.name, []))
    ∧ (∀ env d c e,
      (∀ k, k ≤ 3 → ∃ err, env.gen k = Except.error err ∧ is_rate_limit_error err.msg = true) →
      refine_draft env d c e 0 = (RATE_LIMIT_TEXT, [2, 4, 8]))
    ∧ (∀ env d c e err, env.gen 0 = Except.error err → is_rate_limit_error err.msg = false →
      refine_draft env d c e 0 = (refineErrorText err.name, [])) := by
  refine ⟨?_, ?_, ?_, ?_⟩
  · intro env e cls h
    obtain ⟨e0, h0, r0⟩ := h 0 (by omega)
    obtain ⟨e1, h1, r1⟩ := h 1 (by omega)
    obtain ⟨e2, h2, r2⟩ := h 2 (by omega)
    obtain ⟨e3, h3, r3⟩ := h 3 (by omega)
    simp [draft_response, h0, h1, h2, h3, r0, r1, r2, r3]
  · intro env e cls err h0 hr
    simp [draft_response, h0, hr]
  · intro env d c e h
    obtain ⟨e0, h0, r0⟩ := h 0 (by omega)
    obtain ⟨e1, h1, r1⟩ := h 1 (by omega)
    obtain ⟨e2, h2, r2⟩ := h 2 (by omega)
    obtain ⟨e3, h3, r3⟩ := h 3 (by omega)
    simp [refine_draft, h0, h1, h2, h3, r0, r1, r2, r3]
  · intro env d c e err h0 hr
    simp [refine_draft, h0, hr]

/-- Witness for C8: concrete retried and non-retried generation failures. -/
theorem generation_retry_witness :
    draft_response rateLimitedEnv ⟨[], [], []⟩ ⟨[], [], false⟩ 0 = (RATE_LIMIT_TEXT, [2, 4, 8])
    ∧ refine_draft brokenGenEnv [] [] ⟨[], [], []⟩ 0
        = (refineErrorText (("ValueError").toList), []) := by
  constructor
  · exact generation_retry_characterization.1 rateLimitedEnv ⟨[], [], []⟩ ⟨[], [], false⟩
      (fun k _ => ⟨⟨("ClientError").toList, ("429 RESOURCE_EXHAUSTED").toList⟩, rfl, by decide⟩)
  · exact generation_retry_characterization.2.2.2 brokenGenEnv [] [] ⟨[], [], []⟩
      ⟨("ValueError").toList, ("boom").toList⟩ rfl (by decide)

/-! ### Claim C9: the processed-messages deque is bounded with FIFO eviction -/

theorem appendBounded_length_le (q : List (List Char)) (x : List Char)
    (h : q.length ≤ 500) : (appendBounded q x).length ≤ 500 := by
  simp only [appendBounded]
  by_cases h2 : 500 < (q ++ [x]).length
  · rw [if_pos h2]
    simp only [List.length_drop, List.length_append, List.length_singleton]
    omega
  · rw [if_neg h2]
    omega

theorem handleThreadMsg_length_le (env : Env) (parent_ts : List Char)
    (processed : List (List Char)) (tm : RawMsg) (h : processed.length ≤ 500) :
    (handleThreadMsg env parent_ts processed tm).1.length ≤ 500 := by
  simp only [handleThreadMsg]
  by_cases h1 : processed.contains tm.ts
  · rw [if_pos h1]; exact h
  · rw [if_neg h1]
    by_cases h2 : occursB DRAFT_MARK tm.text = true
    · rw [if_pos h2]; exact appendBounded_length_le _ _ h
    · rw [if_neg h2]
      by_cases h3 : contains_bot_mention env tm.text = true
      · rw [if_pos h3]; exact appendBounded_length_le _ _ h
      · rw [if_neg h3]; exact h

theorem runThread_length_le (env : Env) (parent_ts : List Char) :
    ∀ (tms : List RawMsg) (processed : List (List Char)), processed.length ≤ 500 →
    (runThread env parent_ts processed tms).1.length ≤ 500 := by
  intro tms
  induction tms with
  | nil => intro processed h; exact h
  | cons tm rest ih =>
    intro processed h
    simp only [runThread]
    exact ih _ (handleThreadMsg_length_le env parent_ts processed tm h)

theorem handleTop_length_le (env : Env) (processed : List (List Char)) (m : RawMsg)
    (h : processed.length ≤ 500) : (handleTop env processed m).1.length ≤ 500 := by
  simp only [handleTop]
  have hthread : (if 0 < m.reply_count then
      runThread env m.ts processed (getThreadMessages env m.ts)
      else (processed, [])).1.length ≤ 500 := by
    by_cases hr : 0 < m.reply_count
    · rw [if_pos hr]; exact runThread_length_le env m.ts _ processed h
    · rw [if_neg hr]; exact h
  cases h1 : (if 0 < m.reply_count then
      runThread env m.ts processed (getThreadMessages env m.ts)
      else (processed, [])).1.contains m.ts with
  | true =>
    rw [if_neg (by simp)]
    exact hthread
  | false =>
    rw [if_pos (by simp)]
    by_cases h2 : occursB DRAFT_MARK m.text = true
    · rw [if_pos h2]; exact appendBounded_length_le _ _ hthread
    · rw [if_neg h2]
      by_cases h3 : contains_bot_mention env m.text = true
      · rw [if_pos h3]; exact appendBounded_length_le _ _ hthread
      · rw [if_neg h3]; exact appendBounded_length_le _ _ hthread

theorem runMsgs_length_le (env : Env) :
    ∀ (msgs : List RawMsg) (processed : List (List Char)), processed.length ≤ 500 →
    (runMsgs env processed msgs).1.length ≤ 500 := by
  intro msgs
  induction msgs with
  | nil => intro processed h; exact h
  | cons m rest ih =>
    intro processed h
    simp only [runMsgs]
    exact ih _ (handleTop_length_le env processed m h)

/-- Claim C9: the processed-message deque never exceeds 500 entries across
any sequence of poll cycles, and an insertion into a full deque evicts the
oldest entry (the head) first. -/
theorem processed_set_bounded :
    (∀ q x, q.length = 500 → appendBounded q x = q.drop 1 ++ [x])
    ∧ (∀ cycles st, st.processed.length ≤ 500 →
        (runCycles cycles st).processed.length ≤ 500) := by
  constructor
  · intro q x h
    simp only [appendBounded]
    rw [if_pos (by simp [h])]
    have h1 : (q ++ [x]).length - 500 = 1 := by simp [h]
    rw [h1]
    cases q with
    | nil => simp at h
    | cons a q' => simp
  · intro cycles
    induction cycles with
    | nil => intro st h; exact h
    | cons cyc rest ih =>
      intro st h
      obtain ⟨env, now_fetch, now_end⟩ := cyc
      simp only [runCycles]
      exact ih _ (runMsgs_length_le env _ st.processed h)

/-- Witness for C9: a full deque of 500 entries evicts its head on append,
and a concrete cycle sequence keeps the bound. -/
theorem processed_set_bounded_witness :
    appendBounded (List.replicate 500 (("x").toList)) (("y").toList)
      = (List.replicate 500 (("x").toList)).drop 1 ++ [("y").toList]
    ∧ (runCycles [(watermarkEnv, 100000, 100000)] ⟨[], 0⟩).processed.length ≤ 500 := by
  constructor
  · exact processed_set_bounded.1 (List.replicate 500 (("x").toList)) (("y").toList)
      (List.length_replicate 500 (("x").toList))
  · exact processed_set_bounded.2 [(watermarkEnv, 100000, 100000)] ⟨[], 0⟩ (by simp)

/-! ### Claim C6: one message's failure does not abort the cycle -/

theorem handleTop_has_act (env : Env) (processed : List (List Char)) (m : RawMsg) :
    ∃ a, a ∈ (handleTop env processed m).2 ∧ a.msgOf = m := by
  simp only [handleTop]
  cases h1 : (if 0 < m.reply_count then
      runThread env m.ts processed (getThreadMessages env m.ts)
      else (processed, [])).1.contains m.ts with
  | true =>
    rw [if_neg (by simp)]
    exact ⟨Act.already m, by simp, rfl⟩
  | false =>
    rw [if_pos (by simp)]
    by_cases h2 : occursB DRAFT_MARK m.text = true
    · rw [if_pos h2]
      exact ⟨Act.seen m, by simp, rfl⟩
    · rw [if_neg h2]
      by_cases h3 : contains_bot_mention env m.text = true
      · rw [if_pos h3]
        exact ⟨Act.mention m (process_mention env m.ts m.text m.ts), by simp, rfl⟩
      · rw [if_neg h3]
        exact ⟨Act.seen m, by simp, rfl⟩

theorem runMsgs_covers (env : Env) :
    ∀ (msgs : List RawMsg) (processed : List (List Char)) (m : RawMsg), m ∈ msgs →
    ∃ a, a ∈ (runMsgs env processed msgs).2 ∧ a.msgOf = m := by
  intro msgs
  induction msgs with
  | nil => intro processed m h; simp at h
  | cons m0 rest ih =>
    intro processed m h
    simp only [runMsgs]
    rcases List.mem_cons.mp h with rfl | hmem
    · obtain ⟨a, ha, hm⟩ := handleTop_has_act env processed m
      exact ⟨a, List.mem_append_left _ ha, hm⟩
    · obtain ⟨a, ha, hm⟩ := ih (handleTop env processed m0).1 m hmem
      exact ⟨a, List.mem_append_right _ ha, hm⟩

/-- Claim C6: for every environment — including those whose transport or
generation calls fail (each failure is caught where it is raised: a parse
failure yields `none`, a transport error is swallowed by its wrapper, a
generation error becomes a placeholder string) — every message of the
cycle's window receives a trace entry, so no single message's failure
terminates the per-message loop early, and the cycle always runs to
completion (the watermark update at the end of the cycle is reached). -/
theorem cycle_failure_containment (env : Env) (now_fetch now_end : Nat) (st : SState) :
    (∀ m, m ∈ getRecentMessages env now_fetch →
      ∃ a, a ∈ (process_messages env now_fetch now_end st).2 ∧ a.msgOf = m)
    ∧ (process_messages env now_fetch now_end st).1.last_check_ts = now_end := by
  constructor
  · intro m hm
    exact runMsgs_covers env (getRecentMessages env now_fetch) st.processed m hm
  · rfl

/-- Witness for C6: in `failingEnv` the message after the failing mention
still gets its trace entry, and the cycle completes. -/
theorem cycle_failure_containment_witness :
    (∃ a, a ∈ (process_messages failingEnv 50000 50030 ⟨[], 0⟩).2
      ∧ a.msgOf = ⟨("2.0").toList, ("second message").toList, 0⟩)
    ∧ (process_messages failingEnv 50000 50030 ⟨[], 0⟩).1.last_check_ts = 50030 := by
  constructor
  · exact (cycle_failure_containment failingEnv 50000 50030 ⟨[], 0⟩).1
      ⟨("2.0").toList, ("second message").toList, 0⟩ (by decide)
  · exact (cycle_failure_containment failingEnv 50000 50030 ⟨[], 0⟩).2

/-! ### Claim C10: draft-marker messages are never mention-processed -/

theorem handleThreadMsg_mention_no_marker (env : Env) (parent_ts : List Char)
    (processed : List (List Char)) (tm : RawMsg) (m : RawMsg) (sub : List MAct)
    (h : (handleThreadMsg env parent_ts processed tm).2 = Act.mention m sub) :
    occursB DRAFT_MARK m.text = false := by
  simp only [handleThreadMsg] at h
  by_cases h1 : processed.contains tm.ts
  · rw [if_pos h1] at h
    exact absurd h (by simp)
  · rw [if_neg h1] at h
    by_cases h2 : occursB DRAFT_MARK tm.text = true
    · rw [if_pos h2] at h
      exact absurd h (by simp)
    · rw [if_neg h2] at h
      by_cases h3 : contains_bot_mention env tm.text = true
      · rw [if_pos h3] at h
        have h' : Act.mention tm (process_mention env tm.ts tm.text parent_ts)
            = Act.mention m sub := h
        injection h' with e1 e2
        subst e1
        simpa using h2
      · rw [if_neg h3] at h
        exact absurd h (by simp)

theorem runThread_mention_no_marker (env : Env) (parent_ts : List Char) :
    ∀ (tms : List RawMsg) (processed : List (List Char)) (m : RawMsg) (sub : List MAct),
    Act.mention m sub ∈ (runThread env parent_ts processed tms).2 →
    occursB DRAFT_MARK m.text = false := by
  intro tms
  induction tms with
  | nil => intro processed m sub h; simp [runThread] at h
  | cons tm rest ih =>
    intro processed m sub h
    simp only [runThread, List.mem_cons] at h
    rcases h with h | h
    · exact handleThreadMsg_mention_no_marker env parent_ts processed tm m sub h.symm
    · exact ih _ m sub h

theorem handleTop_mention_no_marker (env : Env) (processed : List (List Char))
    (m0 : RawMsg) (m : RawMsg) (sub : List MAct)
    (h : Act.mention m sub ∈ (handleTop env processed m0).2) :
    occursB DRAFT_MARK m.text = false := by
  simp only [handleTop] at h
  have hthread : ∀ (a : Act), a ∈ (if 0 < m0.reply_count then
      runThread env m0.ts processed (getThreadMessages env m0.ts)
      else (processed, [])).2 → a = Act.mention m sub →
      occursB DRAFT_MARK m.text = false := by
    intro a ha he
    by_cases hr : 0 < m0.reply_count
    · rw [if_pos hr] at ha
      subst he
      exact runThread_mention_no_marker env m0.ts _ processed m sub ha
    · rw [if_neg hr] at ha
      simp at ha
  cases h1 : (if 0 < m0.reply_count then
      runThread env m0.ts processed (getThreadMessages env m0.ts)
      else (processed, [])).1.contains m0.ts with
  | true =>
    rw [h1] at h
    rw [if_neg (by simp)] at h
    rcases List.mem_append.mp h with h | h
    · exact hthread _ h rfl
    · simp at h
  | false =>
    rw [h1] at h
    rw [if_pos (by simp)] at h
    by_cases h2 : occursB DRAFT_MARK m0.text = true
    · rw [if_pos h2] at h
      rcases List.mem_append.mp h with h | h
      · exact hthread _ h rfl
      · simp at h
    · rw [if_neg h2] at h
      by_cases h3 : contains_bot_mention env m0.text = true
      · rw [if_pos h3] at h
        rcases List.mem_append.mp h with h | h
        · exact hthread _ h rfl
        · have h' : m = m0 ∧ sub = process_mention env m0.ts m0.text m0.ts := by
            simpa using h
          obtain ⟨e1, e2⟩ := h'
          subst e1
          simpa using h2
      · rw [if_neg h3] at h
        rcases List.mem_append.mp h with h | h
        · exact hthread _ h rfl
        · simp at h

theorem runMsgs_mention_no_marker (env : Env) :
    ∀ (msgs : List RawMsg) (processed : List (List Char)) (m : RawMsg) (sub : List MAct),
    Act.mention m sub ∈ (runMsgs env processed msgs).2 →
    occursB DRAFT_MARK m.text = false := by
  intro msgs
  induction msgs with
  | nil => intro processed m sub h; simp [runMsgs] at h
  | cons m0 rest ih =>
    intro processed m sub h
    simp only [runMsgs] at h
    rcases List.mem_append.mp h with h | h
    · exact handleTop_mention_no_marker env processed m0 m sub h
    · exact ih _ m sub h

theorem handleThreadMsg_marker_seen (env : Env) (parent_ts : List Char)
    (processed : List (List Char)) (tm : RawMsg)
    (hm : occursB DRAFT_MARK tm.text = true) :
    (handleThreadMsg env parent_ts processed tm).2 = Act.seen tm
    ∨ (handleThreadMsg env parent_ts processed tm).2 = Act.already tm := by
  simp only [handleThreadMsg]
  by_cases h1 : processed.contains tm.ts
  · rw [if_pos h1]
    exact Or.inr rfl
  · rw [if_neg h1, if_pos hm]
    exact Or.inl rfl

theorem runThread_marker_seen (env : Env) (parent_ts : List Char) :
    ∀ (tms : List RawMsg) (processed : List (List Char)) (tm : RawMsg), tm ∈ tms →
    occursB DRAFT_MARK tm.text = true →
    Act.seen tm ∈ (runThread env parent_ts processed tms).2
    ∨ Act.already tm ∈ (runThread env parent_ts processed tms).2 := by
  intro tms
  induction tms with
  | nil => intro processed tm h; simp at h
  | cons tm0 rest ih =>
    intro processed tm h hm
    simp only [runThread]
    rcases List.mem_cons.mp h with rfl | hmem
    · rcases handleThreadMsg_marker_seen env parent_ts processed tm hm with h2 | h2
      · exact Or.inl (by rw [← h2]; exact List.mem_cons_self _ _)
      · exact Or.inr (by rw [← h2]; exact List.mem_cons_self _ _)
    · rcases ih (handleThreadMsg env parent_ts processed tm0).1 tm hmem hm with h2 | h2
      · exact Or.inl (List.mem_cons_of_mem _ h2)
      · exact Or.inr (List.mem_cons_of_mem _ h2)

theorem handleTop_marker_seen (env : Env) (processed : List (List Char)) (m : RawMsg)
    (hm : occursB DRAFT_MARK m.text = true) :
    Act.seen m ∈ (handleTop env processed m).2
    ∨ Act.already m ∈ (handleTop env processed m).2 := by
  simp only [handleTop]
  cases h1 : (if 0 < m.reply_count then
      runThread env m.ts processed (getThreadMessages env m.ts)
      else (processed, [])).1.contains m.ts with
  | true =>
    rw [if_neg (by simp)]
    exact Or.inr (List.mem_append_right _ (by simp))
  | false =>
    rw [if_pos (by simp), if_pos hm]
    exact Or.inl (List.mem_append_right _ (by simp))

theorem handleTop_thread_marker_seen (env : Env) (processed : List (List Char))
    (parent : RawMsg) (hr : 0 < parent.reply_count) (tm : RawMsg)
    (htm : tm ∈ getThreadMessages env parent.ts)
    (hm : occursB DRAFT_MARK tm.text = true) :
    Act.seen tm ∈ (handleTop env processed parent).2
    ∨ Act.already tm ∈ (handleTop env processed parent).2 := by
  simp only [handleTop, if_pos hr]
  have hth := runThread_marker_seen env parent.ts (getThreadMessages env parent.ts)
    processed tm htm hm
  cases h1 : (runThread env parent.ts processed (getThreadMessages env parent.ts)).1.contains
      parent.ts with
  | true =>
    rw [if_neg (by simp)]
    rcases hth with h2 | h2
    · exact Or.inl (List.mem_append_left _ h2)
    · exact Or.inr (List.mem_append_left _ h2)
  | false =>
    rw [if_pos (by simp)]
    by_cases h2 : occursB DRAFT_MARK parent.text = true
    · rw [if_pos h2]
      rcases hth with h3 | h3
      · exact Or.inl (List.mem_append_left _ h3)
      · exact Or.inr (List.mem_append_left _ h3)
    · rw [if_neg h2]
      by_cases h3 : contains_bot_mention env parent.text = true
      · rw [if_pos h3]
        rcases hth with h4 | h4
        · exact Or.inl (List.mem_append_left _ h4)
        · exact Or.inr (List.mem_append_left _ h4)
      · rw [if_neg h3]
        rcases hth with h4 | h4
        · exact Or.inl (List.mem_append_left _ h4)
        · exact Or.inr (List.mem_append_left _ h4)

theorem runMsgs_marker_seen (env : Env) :
    ∀ (msgs : List RawMsg) (processed : List (List Char)) (m : RawMsg), m ∈ msgs →
    occursB DRAFT_MARK m.text = true →
    Act.seen m ∈ (runMsgs env processed msgs).2
    ∨ Act.already m ∈ (runMsgs env processed msgs).2 := by
  intro msgs
  induction msgs with
  | nil => intro processed m h; simp at h
  | cons m0 rest ih =>
    intro processed m h hm
    simp only [runMsgs]
    rcases List.mem_cons.mp h with rfl | hmem
    · rcases handleTop_marker_seen env processed m hm with h2 | h2
      · exact Or.inl (List.mem_append_left _ h2)
      · exact Or.inr (List.mem_append_left _ h2)
    · rcases ih (handleTop env processed m0).1 m hmem hm with h2 | h2
      · exact Or.inl (List.mem_append_right _ h2)
      · exact Or.inr (List.mem_append_right _ h2)

theorem runMsgs_thread_marker_seen (env : Env) :
    ∀ (msgs : List RawMsg) (processed : List (List Char)) (parent : RawMsg),
    parent ∈ msgs → 0 < parent.reply_count →
    ∀ tm, tm ∈ getThreadMessages env parent.ts → occursB DRAFT_MARK tm.text = true →
    Act.seen tm ∈ (runMsgs env processed msgs).2
    ∨ Act.already tm ∈ (runMsgs env processed msgs).2 := by
  intro msgs
  induction msgs with
  | nil => intro processed parent h; simp at h
  | cons m0 rest ih =>
    intro processed parent h hr tm htm hm
    simp only [runMsgs]
    rcases List.mem_cons.mp h with rfl | hmem
    · rcases handleTop_thread_marker_seen env processed parent hr tm htm hm with h2 | h2
      · exact Or.inl (List.mem_append_left _ h2)
      · exact Or.inr (List.mem_append_left _ h2)
    · rcases ih (handleTop env processed m0).1 parent hmem hr tm htm hm with h2 | h2
      · exact Or.inl (List.mem_append_right _ h2)
      · exact Or.inr (List.mem_append_right _ h2)

/-- Claim C10: a message whose text contains `"Draft Response"` is never
sent to mention processing — no `Act.mention` trace entry is ever recorded
for such a message, hence no reply is posted in response to it, since
posts occur only inside `Act.mention` entries — and such a message is only
marked seen (or skipped as already processed), both when it is scanned as
a thread reply and when it is scanned as a top-level message, because the
draft-marker check precedes the mention check in both branches. -/
theorem draft_marker_never_mentioned (env : Env) (now_fetch now_end : Nat) (st : SState) :
    (∀ m sub, Act.mention m sub ∈ (process_messages env now_fetch now_end st).2 →
      occursB DRAFT_MARK m.text = false)
    ∧ (∀ m, m ∈ getRecentMessages env now_fetch → occursB DRAFT_MARK m.text = true →
      Act.seen m ∈ (process_messages env now_fetch now_end st).2
      ∨ Act.already m ∈ (process_messages env now_fetch now_end st).2)
    ∧ (∀ parent, parent ∈ getRecentMessages env now_fetch → 0 < parent.reply_count →
      ∀ tm, tm ∈ getThreadMessages env parent.ts → occursB DRAFT_MARK tm.text = true →
      Act.seen tm ∈ (process_messages env now_fetch now_end st).2
      ∨ Act.already tm ∈ (process_messages env now_fetch now_end st).2) := by
  refine ⟨?_, ?_, ?_⟩
  · intro m sub h
    exact runMsgs_mention_no_marker env (getRecentMessages env now_fetch) st.processed m sub h
  · intro m hm hmark
    exact runMsgs_marker_seen env (getRecentMessages env now_fetch) st.processed m hm hmark
  · intro parent hp hr tm htm hm
    exact runMsgs_thread_marker_seen env (getRecentMessages env now_fetch) st.processed
      parent hp hr tm htm hm

/-- Witness for C10: the marker-and-mention message is only marked seen. -/
theorem draft_marker_never_mentioned_witness :
    Act.seen ⟨("7.0").toList, (":memo: *Draft Response* <@B1>\n\nhello\n\n---").toList, 0⟩
      ∈ (process_messages markerMentionEnv 100 200 ⟨[], 0⟩).2
    ∨ Act.already ⟨("7.0").toList, (":memo: *Draft Response* <@B1>\n\nhello\n\n---").toList, 0⟩
      ∈ (process_messages markerMentionEnv 100 200 ⟨[], 0⟩).2 :=
  (draft_marker_never_mentioned markerMentionEnv 100 200 ⟨[], 0⟩).2.1
    ⟨("7.0").toList, (":memo: *Draft Response* <@B1>\n\nhello\n\n---").toList, 0⟩
    (by decide) (by decide)

/-! ### Claim C5: the thread scan of `get_last_draft_from_thread` -/

theorem all_space_pyStrip_nil (l : List Char) (h : ∀ c ∈ l, isPySpace c = true) :
    pyStrip l = [] := by
  have h1 : dropLeading l = [] := by
    rw [dropLeading, List.dropWhile_eq_nil_iff]
    exact h
  rw [pyStrip, h1]
  rfl

theorem pyStrip_ne_nil_exists (l : List Char) (h : pyStrip l ≠ []) :
    ∃ c ∈ l, isPySpace c = false := by
  by_contra hall
  push_neg at hall
  refine h (all_space_pyStrip_nil l (fun c hc => ?_))
  have := hall c hc
  revert this
  cases isPySpace c <;> simp

theorem mem_joinNL_head (l0 : List Char) (rest : List (List Char)) (c : Char)
    (h : c ∈ l0) : c ∈ joinNL (l0 :: rest) := by
  cases rest with
  | nil => simpa [joinNL] using h
  | cons r rs => simp [joinNL, h]

theorem fallbackScanAux_nonblank :
    ∀ (lines : List (List Char)) (in_draft : Bool) (acc : List (List Char)),
    (∀ l ∈ acc, pyStrip l ≠ []) →
    ∀ l ∈ fallbackScanAux lines in_draft acc, pyStrip l ≠ [] := by
  intro lines
  induction lines with
  | nil => intro in_draft acc hacc l hl; exact hacc l hl
  | cons line rest ih =>
    intro in_draft acc hacc l hl
    simp only [fallbackScanAux] at hl
    by_cases h1 : (occursB STAR_HEADER line || occursB DRAFT_MARK line) = true
    · rw [if_pos h1] at hl
      exact ih true acc hacc l hl
    · rw [if_neg h1] at hl
      by_cases h2 : (startsWith (['-', '-', '-']) line || occursB REPLY_MARK line) = true
      · rw [if_pos h2] at hl
        exact hacc l hl
      · rw [if_neg h2] at hl
        by_cases h3 : (in_draft && !(pyStrip line).isEmpty) = true
        · rw [if_pos h3] at hl
          refine ih in_draft (acc ++ [line]) ?_ l hl
          intro l2 hl2
          rcases List.mem_append.mp hl2 with h4 | h4
          · exact hacc l2 h4
          · have : l2 = line := by simpa using h4
            subst this
            have h5 : (!(pyStrip l2).isEmpty) = true := (Bool.and_eq_true_iff.mp h3).2
            intro h6
            rw [h6] at h5
            simp at h5
        · rw [if_neg h3] at hl
          exact ih in_draft acc hacc l hl

theorem fallbackScan_result (text d : List Char) (h : fallbackScan text = some d) :
    pyStrip d = d ∧ d ≠ [] := by
  simp only [fallbackScan] at h
  by_cases he : (fallbackScanAux (splitLines text) false []).isEmpty = true
  · rw [if_pos he] at h
    cases h
  · rw [if_neg he] at h
    injection h with h
    have hdl : fallbackScanAux (splitLines text) false [] ≠ [] := by
      intro h2
      rw [h2] at he
      exact he rfl
    constructor
    · rw [← h, pyStrip_idem]
    · cases hdl2 : fallbackScanAux (splitLines text) false [] with
      | nil => exact absurd hdl2 hdl
      | cons l0 dls =>
        have hl0 : pyStrip l0 ≠ [] :=
          fallbackScanAux_nonblank (splitLines text) false [] (by simp) l0
            (by rw [hdl2]; exact List.mem_cons_self _ _)
        obtain ⟨c, hc, hcs⟩ := pyStrip_ne_nil_exists l0 hl0
        rw [← h, hdl2]
        exact pyStrip_ne_nil (joinNL (l0 :: dls)) c (mem_joinNL_head l0 dls c hc) hcs

theorem considerMsgDraft_result (text d : List Char)
    (h : considerMsgDraft text = some d) : pyStrip d = d ∧ d ≠ [] := by
  simp only [considerMsgDraft] at h
  by_cases hm : occursB DRAFT_MARK text = true
  · rw [if_pos hm] at h
    simp only [extractDraft] at h
    cases hre : reSearchDraft text with
    | some content =>
      rw [hre] at h
      simp only at h
      by_cases he : (pyStrip content).isEmpty = true
      · rw [if_pos he] at h
        exact fallbackScan_result text d h
      · rw [if_neg he] at h
        injection h with h
        constructor
        · rw [← h, pyStrip_idem]
        · rw [← h]
          intro h2
          rw [h2] at he
          exact he rfl
    | none =>
      rw [hre] at h
      exact fallbackScan_result text d h
  · rw [if_neg hm] at h
    cases h

theorem lastDraftAux_some_iff :
    ∀ (l : List (List Char)) (d : List Char), lastDraftAux l = some d ↔
      ∃ pre text suf, l = pre ++ text :: suf
        ∧ (∀ t2 ∈ pre, considerMsgDraft t2 = none)
        ∧ considerMsgDraft text = some d := by
  intro l
  induction l with
  | nil =>
    intro d
    constructor
    · intro h
      simp [lastDraftAux] at h
    · rintro ⟨pre, text, suf, h, -, -⟩
      exact absurd h (by simp)
  | cons t0 rest ih =>
    intro d
    simp only [lastDraftAux]
    cases h0 : considerMsgDraft t0 with
    | some d0 =>
      constructor
      · intro h
        injection h with h
        exact ⟨[], t0, rest, rfl, by simp, by rw [h0, h]⟩
      · rintro ⟨pre, text, suf, heq, hall, hsome⟩
        cases pre with
        | nil =>
          simp only [List.nil_append] at heq
          injection heq with e1 e2
          subst e1
          rw [h0] at hsome
          exact hsome
        | cons p0 pre2 =>
          simp only [List.cons_append] at heq
          injection heq with e1 e2
          subst e1
          have := hall t0 (List.mem_cons_self _ _)
          rw [h0] at this
          cases this
    | none =>
      rw [ih d]
      constructor
      · rintro ⟨pre, text, suf, heq, hall, hsome⟩
        refine ⟨t0 :: pre, text, suf, by rw [heq]; rfl, ?_, hsome⟩
        intro t2 ht2
        rcases List.mem_cons.mp ht2 with rfl | h2
        · exact h0
        · exact hall t2 h2
      · rintro ⟨pre, text, suf, heq, hall, hsome⟩
        cases pre with
        | nil =>
          simp only [List.nil_append] at heq
          injection heq with e1 e2
          subst e1
          rw [h0] at hsome
          cases hsome
        | cons p0 pre2 =>
          simp only [List.cons_append] at heq
          injection heq with e1 e2
          subst e2
          exact ⟨pre2, text, suf, rfl, fun t2 ht2 => hall t2 (List.mem_cons_of_mem _ ht2),
            hsome⟩

theorem lastDraftAux_none (l : List (List Char))
    (h : ∀ t ∈ l, considerMsgDraft t = none) : lastDraftAux l = none := by
  induction l with
  | nil => rfl
  | cons t0 rest ih =>
    simp only [lastDraftAux]
    rw [h t0 (List.mem_cons_self _ _)]
    exact ih (fun t ht => h t (List.mem_cons_of_mem _ ht))

/-- Claim C5 as amended: `get_last_draft_from_thread` scans the thread
newest-first and returns the first successful per-message extraction — the
regex path, or the line-scan fallback when the regex does not match or its
trimmed group is empty: the result `some d` is exactly a decomposition of
the thread with no newer message yielding an extraction; it returns `none`
when no message contains the `"Draft Response"` marker, and every returned
draft is a trimmed nonempty span. -/
theorem get_last_draft_characterization (msgs : List (List Char)) :
    (∀ d, get_last_draft_from_thread msgs = some d ↔
      ∃ older text newer, msgs = older ++ text :: newer
        ∧ considerMsgDraft text = some d
        ∧ ∀ t2 ∈ newer, considerMsgDraft t2 = none)
    ∧ ((∀ text ∈ msgs, occursB DRAFT_MARK text = false) →
      get_last_draft_from_thread msgs = none)
    ∧ (∀ d, get_last_draft_from_thread msgs = some d → pyStrip d = d ∧ d ≠ []) := by
  refine ⟨?_, ?_, ?_⟩
  · intro d
    rw [get_last_draft_from_thread, lastDraftAux_some_iff]
    constructor
    · rintro ⟨pre, text, suf, heq, hall, hsome⟩
      refine ⟨suf.reverse, text, pre.reverse, ?_, hsome, ?_⟩
      · have := congrArg List.reverse heq
        rw [List.reverse_reverse] at this
        rw [this]
        simp
      · intro t2 ht2
        exact hall t2 (List.mem_reverse.mp ht2)
    · rintro ⟨older, text, newer, heq, hsome, hall⟩
      refine ⟨newer.reverse, text, older.reverse, ?_, ?_, hsome⟩
      · rw [heq]
        simp
      · intro t2 ht2
        exact hall t2 (List.mem_reverse.mp ht2)
  · intro h
    rw [get_last_draft_from_thread]
    refine lastDraftAux_none _ (fun t ht => ?_)
    rw [considerMsgDraft, if_neg (by rw [h t (List.mem_reverse.mp ht)]; simp)]
  · intro d h
    obtain ⟨pre, text, suf, heq, hall, hsome⟩ :=
      (lastDraftAux_some_iff msgs.reverse d).mp h
    exact considerMsgDraft_result text d hsome

/-- Counterexample to C5 as stated: on this message the primary regex does
match (`reSearchDraft` finds the starred header with a whitespace-only
group), so per the claim the fallback is not used and the empty span means
no draft; the code nevertheless runs the line-scan fallback and returns
`"Hello"`. -/
theorem get_last_draft_counterexample :
    reSearchDraft (("Draft Response\nHello\n*Draft Response*\n\n \n\n---").toList)
      = some ([' '])
    ∧ specClaimExtract (("Draft Response\nHello\n*Draft Response*\n\n \n\n---").toList)
      = none
    ∧ get_last_draft_from_thread
        [("Draft Response\nHello\n*Draft Response*\n\n \n\n---").toList]
      = some (("Hello").toList) := by
  refine ⟨by decide, by decide, by decide⟩

/-- Witness for C5: a thread of three messages — an email notification, an
older draft post, and a newer draft post — yields the newest draft. -/
theorem get_last_draft_characterization_witness :
    get_last_draft_from_thread
      [("bob | Subject: hi | Body Preview: yo").toList,
       (":memo: *Draft Response*\n\nOld draft.\n\n---\nfooter").toList,
       (":memo: *Draft Response*\n\nNew draft.\n\n---\nfooter").toList]
      = some (("New draft.").toList) := by
  refine ((get_last_draft_characterization _).1 _).mpr
    ⟨[("bob | Subject: hi | Body Preview: yo").toList,
      (":memo: *Draft Response*\n\nOld draft.\n\n---\nfooter").toList],
     (":memo: *Draft Response*\n\nNew draft.\n\n---\nfooter").toList,
     [], by decide, by decide, by decide⟩

/-! ### Claim C4: the parse / re-serialize round trip -/

theorem startsWith_mark_pipefree (m2 c2 : List Char) (hc2 : c2 ≠ [])
    (hpf : ∀ c ∈ c2, c ≠ '|') (y : List Char)
    (hy : ∀ c, y.head? = some c → c ≠ '|') :
    startsWith (' ' :: '|' :: m2) (c2 ++ y) = false := by
  cases c2 with
  | nil => exact absurd rfl hc2
  | cons c c22 =>
    show startsWith (' ' :: '|' :: m2) (c :: (c22 ++ y)) = false
    cases c22 with
    | nil =>
      cases hy2 : y with
      | nil => simp [startsWith]
      | cons y0 y2 =>
        have h0 : y0 ≠ '|' := hy y0 (by rw [hy2]; rfl)
        have h1 : ('|' == y0) = false := by
          simpa using (Ne.symm h0)
        simp [startsWith, h1]
    | cons c3 c23 =>
      have h3 : c3 ≠ '|' := hpf c3 (by simp)
      have h1 : ('|' == c3) = false := by
        simpa using (Ne.symm h3)
      simp [startsWith, h1]

theorem startsWith_bodymark_submark_tail (w : List Char) (hwne : w ≠ [])
    (a2 : List Char) (hms : a2 ++ w = SUBJECT_MARK)
    (subject : List Char) (hsubne : subject ≠ [])
    (hsubpf : ∀ c ∈ subject, c ≠ '|') (rest : List Char) :
    startsWith BODY_MARK (w ++ (subject ++ rest)) = false := by
  have hwdrop : w = SUBJECT_MARK.drop a2.length := by
    rw [← hms, List.drop_left]
  have hlen : a2.length + w.length = 12 := by
    have := congrArg List.length hms
    simpa [SUBJECT_MARK] using this
  have hwlen : 1 ≤ w.length := by
    cases w with
    | nil => exact absurd rfl hwne
    | cons a b => simp
  have hk : a2.length ≤ 11 := by omega
  obtain ⟨k, hk11, hwk⟩ : ∃ k, k ≤ 11 ∧ w = SUBJECT_MARK.drop k :=
    ⟨a2.length, hk, hwdrop⟩
  interval_cases k <;> subst hwk
  case «11» =>
    cases subject with
    | nil => exact absurd rfl hsubne
    | cons c s2 =>
      have h3 : c ≠ '|' := hsubpf c (by simp)
      have h1 : ('|' == c) = false := by simpa using (Ne.symm h3)
      simp [SUBJECT_MARK, BODY_MARK, startsWith, h1]
  all_goals simp [SUBJECT_MARK, BODY_MARK, startsWith]

theorem parse_email_inv (t : List Char) (p : ParsedEmail)
    (h : parse_email_from_message t = some p) :
    ∃ bb bp fp sp,
      splitOnFirst BODY_MARK (pyStrip (firstLineOf t)) = some (bb, bp)
      ∧ splitOnFirst SUBJECT_MARK bb = some (fp, sp)
      ∧ pyStrip fp ≠ [] ∧ pyStrip sp ≠ []
      ∧ p = ⟨pyStrip fp, pyStrip sp,
          if (pyStrip bp).isEmpty then NO_PREVIEW else pyStrip bp⟩ := by
  unfold parse_email_from_message at h
  by_cases hg : (occursB SUBJECT_MARK (pyStrip (firstLineOf t))
      && occursB BODY_MARK (pyStrip (firstLineOf t))) = true
  · rw [if_pos hg] at h
    cases hsb : splitOnFirst BODY_MARK (pyStrip (firstLineOf t)) with
    | none => rw [hsb] at h; cases h
    | some pr1 =>
      obtain ⟨bb, bp⟩ := pr1
      rw [hsb] at h
      cases hss : splitOnFirst SUBJECT_MARK bb with
      | none =>
        simp only [hss] at h
        exact absurd h (by simp)
      | some pr2 =>
        obtain ⟨fp, sp⟩ := pr2
        simp only [hss] at h
        by_cases he : ((pyStrip fp).isEmpty || (pyStrip sp).isEmpty) = true
        · rw [if_pos he] at h; cases h
        · rw [if_neg he] at h
          injection h with h
          refine ⟨bb, bp, fp, sp, rfl, hss, ?_, ?_, h.symm⟩
          · intro h2
            refine he ?_
            simp [List.isEmpty_iff, h2]
          · intro h2
            refine he ?_
            simp [List.isEmpty_iff, h2]
  · rw [if_neg hg] at h
    cases h

/-- Claim C4 as amended: for every text on which the parser succeeds and
whose parsed sender and subject contain no `'|'` character, re-serializing
the `ParsedEmail` into the notification template and parsing the result
yields the identical `ParsedEmail`.  (Pipe characters inside those two
fields can shift the leftmost-marker splits of the re-serialized line, as
the counterexample shows.) -/
theorem parse_serialize_roundtrip (t : List Char) (p : ParsedEmail)
    (hp : parse_email_from_message t = some p)
    (hpf1 : ∀ c ∈ p.sender, c ≠ '|')
    (hpf2 : ∀ c ∈ p.subject, c ≠ '|') :
    parse_email_from_message (serializeEmail p) = some p := by
  obtain ⟨bb, bp, fp, sp, hsb, hss, hfne, hsne, hpe⟩ := parse_email_inv t p hp
  rw [hpe] at hpf1 hpf2 ⊢
  simp only at hpf1 hpf2
  set S := pyStrip fp with hSdef
  set U := pyStrip sp with hUdef
  set B := (if (pyStrip bp).isEmpty = true then NO_PREVIEW else pyStrip bp) with hBdef
  -- structural facts about the three fields
  have hS_strip : pyStrip S = S := pyStrip_idem fp
  have hU_strip : pyStrip U = U := pyStrip_idem sp
  have hB_strip : pyStrip B = B := by
    rw [hBdef]
    by_cases he : (pyStrip bp).isEmpty = true
    · rw [if_pos he]; decide
    · rw [if_neg he]; exact pyStrip_idem bp
  have hB_ne : B ≠ [] := by
    rw [hBdef]
    by_cases he : (pyStrip bp).isEmpty = true
    · rw [if_pos he]; decide
    · rw [if_neg he]
      intro h2
      rw [h2] at he
      exact he rfl
  -- no newline occurs in any field
  have hfl_decomp : pyStrip (firstLineOf t) = bb ++ BODY_MARK ++ bp :=
    splitOnFirst_sound _ _ _ _ hsb
  have hbb_decomp : bb = fp ++ SUBJECT_MARK ++ sp :=
    splitOnFirst_sound _ _ _ _ hss
  have hfl_nl : ∀ c ∈ pyStrip (firstLineOf t), c ≠ '\n' := by
    intro c hc
    have h2 := mem_pyStrip _ _ hc
    have h3 := List.mem_takeWhile_imp h2
    simpa using h3
  have hS_nl : ∀ c ∈ S, c ≠ '\n' := by
    intro c hc
    refine hfl_nl c ?_
    rw [hfl_decomp, hbb_decomp]
    exact List.mem_append_left _ (List.mem_append_left _
      (List.mem_append_left _ (List.mem_append_left _ (mem_pyStrip _ _ hc))))
  have hU_nl : ∀ c ∈ U, c ≠ '\n' := by
    intro c hc
    refine hfl_nl c ?_
    rw [hfl_decomp, hbb_decomp]
    exact List.mem_append_left _ (List.mem_append_left _
      (List.mem_append_right _ (mem_pyStrip _ _ hc)))
  have hB_nl : ∀ c ∈ B, c ≠ '\n' := by
    rw [hBdef]
    by_cases he : (pyStrip bp).isEmpty = true
    · rw [if_pos he]; decide
    · rw [if_neg he]
      intro c hc
      refine hfl_nl c ?_
      rw [hfl_decomp]
      exact List.mem_append_right _ (mem_pyStrip _ _ hc)
  -- the serialized line
  have hser : serializeEmail ⟨S, U, B⟩ = S ++ SUBJECT_MARK ++ U ++ BODY_MARK ++ B := rfl
  rw [hser]
  -- the serialized text is a single already-stripped line
  have hnl_all : ∀ c ∈ S ++ SUBJECT_MARK ++ U ++ BODY_MARK ++ B, (!(c == '\n')) = true := by
    intro c hc
    have hMs : ∀ c ∈ SUBJECT_MARK, c ≠ '\n' := by decide
    have hMb : ∀ c ∈ BODY_MARK, c ≠ '\n' := by decide
    have : c ≠ '\n' := by
      rcases List.mem_append.mp hc with hc | hc
      · rcases List.mem_append.mp hc with hc | hc
        · rcases List.mem_append.mp hc with hc | hc
          · rcases List.mem_append.mp hc with hc | hc
            · exact hS_nl c hc
            · exact hMs c hc
          · exact hU_nl c hc
        · exact hMb c hc
      · exact hB_nl c hc
    simpa using this
  have hline1 : firstLineOf (S ++ SUBJECT_MARK ++ U ++ BODY_MARK ++ B)
      = S ++ SUBJECT_MARK ++ U ++ BODY_MARK ++ B := by
    rw [firstLineOf]
    exact List.takeWhile_eq_self_iff.mpr hnl_all
  have hhead : ∀ c, (S ++ SUBJECT_MARK ++ U ++ BODY_MARK ++ B).head? = some c →
      isPySpace c = false := by
    intro c hc
    cases hSc : S with
    | nil => exact absurd (hSdef ▸ hSc) hfne
    | cons s0 S2 =>
      rw [hSc] at hc
      simp only [List.cons_append, List.head?_cons, Option.some.injEq] at hc
      rw [← hc]
      refine pyStrip_head_not_space S s0 ?_
      rw [hS_strip, hSc]
      rfl
  have hlast : ∀ c, (S ++ SUBJECT_MARK ++ U ++ BODY_MARK ++ B).getLast? = some c →
      isPySpace c = false := by
    intro c hc
    rw [List.getLast?_append_of_ne_nil _ hB_ne] at hc
    refine pyStrip_last_not_space B c ?_
    rw [hB_strip]
    exact hc
  have hstrip1 : pyStrip (S ++ SUBJECT_MARK ++ U ++ BODY_MARK ++ B)
      = S ++ SUBJECT_MARK ++ U ++ BODY_MARK ++ B :=
    pyStrip_eq_self _ hhead hlast
  -- the two markers occur
  have hoccS : occursB SUBJECT_MARK (S ++ SUBJECT_MARK ++ U ++ BODY_MARK ++ B) = true := by
    refine (occursB_iff_parts _ _).mpr ⟨S, U ++ BODY_MARK ++ B, ?_⟩
    simp [List.append_assoc]
  have hoccB : occursB BODY_MARK (S ++ SUBJECT_MARK ++ U ++ BODY_MARK ++ B) = true := by
    refine (occursB_iff_parts _ _).mpr ⟨S ++ SUBJECT_MARK ++ U, B, ?_⟩
    simp [List.append_assoc]
  -- the first split lands at the appended body marker
  have hheadMsU : ∀ c : Char, (SUBJECT_MARK ++ (U ++ (BODY_MARK ++ B))).head? = some c →
      c ≠ '|' := by
    intro c hc
    have : (SUBJECT_MARK ++ (U ++ (BODY_MARK ++ B))).head? = some ' ' := rfl
    rw [this] at hc
    injection hc with hc
    subst hc
    decide
  have hheadMbB : ∀ c : Char, (BODY_MARK ++ B).head? = some c → c ≠ '|' := by
    intro c hc
    have : (BODY_MARK ++ B).head? = some ' ' := rfl
    rw [this] at hc
    injection hc with hc
    subst hc
    decide
  have hheadMsUonly : ∀ c : Char, (SUBJECT_MARK ++ U).head? = some c → c ≠ '|' := by
    intro c hc
    have : (SUBJECT_MARK ++ U).head? = some ' ' := rfl
    rw [this] at hc
    injection hc with hc
    subst hc
    decide
  have hsplit1 : splitOnFirst BODY_MARK (S ++ SUBJECT_MARK ++ U ++ BODY_MARK ++ B)
      = some (S ++ SUBJECT_MARK ++ U, B) := by
    refine splitOnFirst_first BODY_MARK (S ++ SUBJECT_MARK ++ U) B ?_
    intro u v huv hv
    rw [List.append_assoc]
    rcases List.append_eq_append_iff.mp huv with ⟨a2, hu, hU2⟩ | ⟨c2, hSM, hv2⟩
    · -- v is a trailing piece of the subject
      refine startsWith_mark_pipefree _ v hv ?_ (BODY_MARK ++ B) hheadMbB
      intro c hcv
      exact hpf2 c (by rw [hU2]; exact List.mem_append_right _ hcv)
    · subst hv2
      rcases List.append_eq_append_iff.mp hSM with ⟨b2, hu2, hM2⟩ | ⟨d2, hS2, hc22⟩
      · -- c2 is a trailing piece of the subject marker
        by_cases hc2e : c2 = []
        · subst hc2e
          simp only [List.nil_append]
          refine startsWith_mark_pipefree _ U ?_ ?_ (BODY_MARK ++ B) hheadMbB
          · intro h2
            exact hsne (hUdef ▸ h2)
          · exact hpf2
        · rw [List.append_assoc]
          refine startsWith_bodymark_submark_tail c2 hc2e b2 hM2.symm
            U ?_ hpf2 (BODY_MARK ++ B)
          intro h2
          exact hsne (hUdef ▸ h2)
      · -- c2 reaches back into the sender
        subst hc22
        by_cases hd2e : d2 = []
        · subst hd2e
          simp only [List.nil_append, List.append_assoc]
          refine startsWith_bodymark_submark_tail SUBJECT_MARK (by decide) [] rfl
            U ?_ hpf2 (BODY_MARK ++ B)
          intro h2
          exact hsne (hUdef ▸ h2)
        · simp only [List.append_assoc]
          refine startsWith_mark_pipefree _ d2 hd2e ?_
            (SUBJECT_MARK ++ (U ++ (BODY_MARK ++ B))) hheadMsU
          intro c hcv
          exact hpf1 c (by rw [hS2]; exact List.mem_append_right _ hcv)
  -- the second split lands at the appended subject marker
  have hsplit2 : splitOnFirst SUBJECT_MARK (S ++ SUBJECT_MARK ++ U) = some (S, U) := by
    refine splitOnFirst_first SUBJECT_MARK S U ?_
    intro u v huv hv
    rw [List.append_assoc]
    refine startsWith_mark_pipefree _ v hv ?_ (SUBJECT_MARK ++ U) hheadMsUonly
    intro c hcv
    exact hpf1 c (by rw [huv]; exact List.mem_append_right _ hcv)
  -- assemble the parse of the serialized line
  unfold parse_email_from_message
  rw [hline1, hstrip1, if_pos (by rw [hoccS, hoccB]; rfl), hsplit1]
  simp only [hsplit2]
  rw [hS_strip, hU_strip]
  rw [if_neg (by simp [List.isEmpty_iff, hfne, hsne, hSdef, hUdef])]
  rw [hB_strip]
  have hBemp : B.isEmpty = false := by
    cases hBc : B with
    | nil => exact absurd hBc hB_ne
    | cons b0 B2 => rfl
  rw [hBemp]
  rfl

/-- Counterexample to C4 as stated: parsing
`"a | Subject: b | Body Preview:\t | Body Preview: c"` succeeds with
subject `"b | Body Preview:"` (the tab makes the earlier marker-like text
fall short of the full marker, and trimming then removes the tab), but
re-serializing recreates a full `" | Body Preview: "` occurrence at an
earlier position, so re-parsing yields a different `ParsedEmail`. -/
theorem parse_serialize_counterexample :
    parse_email_from_message
        (("a | Subject: b | Body Preview:\t | Body Preview: c").toList)
      = some ⟨("a").toList, ("b | Body Preview:").toList, ("c").toList⟩
    ∧ parse_email_from_message
        (serializeEmail ⟨("a").toList, ("b | Body Preview:").toList, ("c").toList⟩)
      = some ⟨("a").toList, ("b").toList, ("| Body Preview: c").toList⟩
    ∧ (⟨("a").toList, ("b").toList, ("| Body Preview: c").toList⟩ : ParsedEmail)
      ≠ ⟨("a").toList, ("b | Body Preview:").toList, ("c").toList⟩ := by
  refine ⟨by decide, by decide, by decide⟩

/-- Witness for C4 (amended): a concrete pipe-free round trip. -/
theorem parse_serialize_roundtrip_witness :
    parse_email_from_message
        (serializeEmail ⟨("Jane").toList, ("Budget").toList, ("numbers").toList⟩)
      = some ⟨("Jane").toList, ("Budget").toList, ("numbers").toList⟩ :=
  parse_serialize_roundtrip (("Jane | Subject: Budget | Body Preview: numbers").toList)
    ⟨("Jane").toList, ("Budget").toList, ("numbers").toList⟩
    (by decide) (by decide) (by decide)
